import Mathlib

/-!
# Verification of the accessibility-pattern-mcp parsing and indexing core

A shallow embedding of the repository's markdown-to-structured-data
pipeline (`src/repo/sections.ts`, `src/repo/globalRules.ts`,
`src/repo/index.ts`, `src/tools/listPatterns.ts`, `src/tools/getPattern.ts`,
`src/tools/getGlobalRules.ts`) in Lean 4, together with theorems settling
the specified behaviour of the core.

Conventions of the embedding:
* JavaScript strings are Lean `String`s; the JS string primitives the code
  uses (`split`, `trim`, `toLowerCase`, regex line matches, ...) are
  re-implemented below over `List Char` so all definitions are executable
  and kernel-reducible.  JS `\s` is modelled by `Char.isWhitespace`
  (space, tab, CR, LF), which agrees with JS on the ASCII inputs the
  repository handles.
* `throw new Error(msg)` is modelled by `Except.error msg`; async I/O is
  modelled by explicit function arguments (a filesystem record, a hash
  function for `node:crypto` sha256, a JSON parser for `JSON.parse`).
* `Array.prototype.sort` with a `localeCompare` comparator is modelled by
  a stable insertion sort (`jsSort`) over the lexicographic order on
  `String`.
-/

namespace APMcp

/-! ## JS string primitives -/

/-- `s.split(c)` on a one-character separator (JS `String.prototype.split`):
always returns at least one (possibly empty) segment. -/
def splitCharList (c : Char) : List Char → List (List Char)
  | [] => [[]]
  | x :: xs =>
    if x = c then [] :: splitCharList c xs
    else
      match splitCharList c xs with
      | [] => [[x]]
      | h :: t => (x :: h) :: t

/-- `s.split("\n")` as a `String`-level operation. -/
def splitNl (s : String) : List String :=
  (splitCharList '\n' s.data).map (fun l => ⟨l⟩)

/-- `s.replace(/\r\n/g, "\n")`. -/
def normalizeCrLfList : List Char → List Char
  | '\r' :: '\n' :: rest => '\n' :: normalizeCrLfList rest
  | c :: rest => c :: normalizeCrLfList rest
  | [] => []

def normalizeCrLf (s : String) : String := ⟨normalizeCrLfList s.data⟩

/-- `s.replace(/\t/g, "  ")`. -/
def tabNormList : List Char → List Char
  | '\t' :: rest => ' ' :: ' ' :: tabNormList rest
  | c :: rest => c :: tabNormList rest
  | [] => []

def tabNorm (s : String) : String := ⟨tabNormList s.data⟩

/-- Whitespace in the sense of the JS regex class `\s` (restricted to the
ASCII whitespace actually occurring in the repository's content). -/
def isWs (c : Char) : Bool := c.isWhitespace

def trimListLeft (l : List Char) : List Char := l.dropWhile isWs

def trimList (l : List Char) : List Char :=
  ((l.dropWhile isWs).reverse.dropWhile isWs).reverse

/-- `s.trim()`. -/
def jsTrim (s : String) : String := ⟨trimList s.data⟩

/-- `s.trimEnd()`. -/
def jsTrimEnd (s : String) : String := ⟨(s.data.reverse.dropWhile isWs).reverse⟩

/-- ASCII lower-casing of one character (JS `toLowerCase` on the ASCII
range used by the repository). -/
def lowerChar (c : Char) : Char :=
  if 'A' ≤ c ∧ c ≤ 'Z' then Char.ofNat (c.toNat + 32) else c

/-- `s.toLowerCase()`. -/
def jsLower (s : String) : String := ⟨s.data.map lowerChar⟩

/-- `Array.prototype.join(sep)`. -/
def joinSep (sep : String) : List String → String
  | [] => ""
  | [x] => x
  | x :: rest => x ++ sep ++ joinSep sep rest

/-- Substring occurrence test on character lists. -/
def listContains (needle : List Char) : List Char → Bool
  | [] => needle.isEmpty
  | c :: cs => needle.isPrefixOf (c :: cs) || listContains needle cs

/-- `a.includes(b)` (substring test). -/
def jsIncludes (s sub : String) : Bool := listContains sub.data s.data

/-- `s.startsWith(p)`. -/
def jsStartsWith (s p : String) : Bool := p.data.isPrefixOf s.data

/-- First-occurrence deduplication with the already-emitted set carried
along, i.e. `Array.from(new Set(xs))`. -/
def jsSetDedupGo (seen : List String) : List String → List String
  | [] => []
  | x :: xs =>
    if x ∈ seen then jsSetDedupGo seen xs
    else x :: jsSetDedupGo (seen ++ [x]) xs

def jsSetDedup (l : List String) : List String := jsSetDedupGo [] l

/-- JS `Array.prototype.sort` (stable insertion sort; the comparator is a
boolean `le`). -/
def insertSorted (le : α → α → Bool) (x : α) : List α → List α
  | [] => [x]
  | y :: ys => if le x y then x :: y :: ys else y :: insertSorted le x ys

def jsSort (le : α → α → Bool) (l : List α) : List α :=
  l.foldr (insertSorted le) []

/-- Lexicographic comparison of character lists (by code point). -/
def charListLe : List Char → List Char → Bool
  | [], _ => true
  | _ :: _, [] => false
  | a :: as, b :: bs =>
    if a.toNat < b.toNat then true
    else if b.toNat < a.toNat then false
    else charListLe as bs

/-- The boolean comparison used to model `(a, b) => a.localeCompare(b)`
sorts: the lexicographic order on `String` (see `strLe_iff`). -/
def strLe (a b : String) : Bool := charListLe a.data b.data

/-! ## Line-level regex models

Each definition models one of the regular expressions the repository
applies to a single line (the patterns contain no `\n`, so a match of the
anchored forms against a whole line is equivalent to the JS behaviour). -/

/-- `/^##\s+(.*)$/` — returns the capture group (text after the run of
whitespace following `##`). -/
def matchH2 (line : String) : Option String :=
  match line.data with
  | '#' :: '#' :: rest =>
    match rest with
    | c :: _ => if isWs c then some ⟨rest.dropWhile isWs⟩ else none
    | [] => none
  | _ => none

/-- `/^###\s+(.*)\s*$/` — capture group of an H3 heading line. -/
def matchH3 (line : String) : Option String :=
  match line.data with
  | '#' :: '#' :: '#' :: rest =>
    match rest with
    | c :: _ => if isWs c then some ⟨rest.dropWhile isWs⟩ else none
    | [] => none
  | _ => none

/-- `/^##\s+Rule:\s*(.*)\s*$/i` — capture group of a `## Rule:` heading. -/
def matchRuleH2 (line : String) : Option String :=
  match line.data with
  | '#' :: '#' :: rest =>
    match rest with
    | c :: _ =>
      if isWs c then
        let u := rest.dropWhile isWs
        if (u.take 5).map lowerChar = "rule:".data then
          some ⟨(u.drop 5).dropWhile isWs⟩
        else none
      else none
    | [] => none
  | _ => none

/-- `/^[-*]\s+(.*)$/` — top-level bullet line starting at column 0. -/
def matchTopBullet (line : String) : Option String :=
  match line.data with
  | c :: rest =>
    if c = '-' ∨ c = '*' then
      match rest with
      | d :: _ => if isWs d then some ⟨rest.dropWhile isWs⟩ else none
      | [] => none
    else none
  | [] => none

/-- `/^\d+\.\s+(.*)$/` — simple numbered bullet line. -/
def matchTopNum (line : String) : Option String :=
  let digits := line.data.takeWhile Char.isDigit
  if digits.isEmpty then none
  else
    match line.data.drop digits.length with
    | '.' :: rest =>
      match rest with
      | c :: _ => if isWs c then some ⟨rest.dropWhile isWs⟩ else none
      | [] => none
    | _ => none

/-- `/^\s{2,}[-*]\s+(.*)$/` — one-level nested bullet line. -/
def matchNested (line : String) : Option String :=
  let ws := line.data.takeWhile isWs
  if ws.length < 2 then none
  else
    match line.data.drop ws.length with
    | c :: rest =>
      if c = '-' ∨ c = '*' then
        match rest with
        | d :: _ => if isWs d then some ⟨rest.dropWhile isWs⟩ else none
        | [] => none
      else none
    | [] => none

/-! ## src/repo/sections.ts — Pattern-Section Mapper -/

/-- `ParsedSections` from `src/repo/sections.ts`. -/
structure ParsedSections where
  use_when : List String
  do_not_use_when : List String
  must_haves : List String
  customizable : List String
  donts : List String
  golden_pattern : Option String
deriving Repr, DecidableEq

/-- Keys of `ParsedSections` (targets of `HEADING_TO_KEY`). -/
inductive SectionKey where
  | use_when | do_not_use_when | must_haves | customizable | donts | golden
deriving Repr, DecidableEq

/-- The `HEADING_TO_KEY` lookup table of `src/repo/sections.ts`. -/
def headingToKey (h : String) : Option SectionKey :=
  if h = "use when" then some .use_when
  else if h = "do not use when" then some .do_not_use_when
  else if h = "must haves" then some .must_haves
  else if h = "customizable" then some .customizable
  else if h = "don't" ++ "s" then some .donts
  else if h = "don’" ++ "ts" then some .donts
  else if h = "donts" then some .donts
  else if h = "golden pattern" then some .golden
  else none

/-- One step of `splitByH2`'s line loop: state is
`(result, currentHeading, currentBody)`. -/
def splitByH2Push (st : List (Option String × String) × Option String × List String) :
    List (Option String × String) :=
  let (result, currentHeading, currentBody) := st
  -- pushCurrent: don't push empty preamble
  if currentHeading = none ∧ jsTrim (joinSep "\n" currentBody) = "" then result
  else result ++ [(currentHeading, joinSep "\n" currentBody)]

def splitByH2Loop (lines : List String)
    (st : List (Option String × String) × Option String × List String) :
    List (Option String × String) :=
  match lines with
  | [] => splitByH2Push st
  | line :: rest =>
    match matchH2 line with
    | some cap => splitByH2Loop rest (splitByH2Push st, some (jsTrim cap), [])
    | none =>
      let (result, currentHeading, currentBody) := st
      splitByH2Loop rest (result, currentHeading, currentBody ++ [line])

/-- `splitByH2` from `src/repo/sections.ts`: splits markdown into
`{heading, body}` segments at `## ` headings (heading `none` is the
preamble, kept only when non-blank). -/
def splitByH2 (markdown : String) : List (Option String × String) :=
  splitByH2Loop (splitNl markdown) ([], none, [])

/-- JS truthiness of the `current` bullet accumulator (`null` and `""` are
falsy). -/
def currentTruthy : Option String → Bool
  | none => false
  | some s => s ≠ ""

/-- `flushCurrent` from `toBulletArray`: pushes the open bullet (with its
nested sub-items rendered back) unless `current` is falsy. -/
def bulletFlush (st : List String × Option String × List String) :
    List String × Option String × List String :=
  let (items, current, nested) := st
  match current with
  | some c =>
    if c = "" then (items, current, nested)
    else if nested ≠ [] then
      (items ++ [c ++ "\n" ++ joinSep "\n" (nested.map (fun n => "  - " ++ n))], none, [])
    else (items ++ [c], none, [])
  | none => (items, current, nested)

/-- The line loop shared by `toBulletArray` (`src/repo/sections.ts`) and
`toBullets` (`src/repo/globalRules.ts`); the two source functions are
textually identical. -/
def bulletLoop (lines : List String)
    (st : List String × Option String × List String) : List String :=
  match lines with
  | [] => (bulletFlush st).1
  | rawLine :: rest =>
    let line := tabNorm rawLine
    let trimmed := jsTrim line
    let (items, current, nested) := st
    if trimmed = "" then bulletLoop rest st
    -- `if (nestedMatch && current)` — nested sub-bullet of an open bullet;
    -- when `current` is falsy the line falls through to the checks below.
    else if (matchNested line).isSome ∧ currentTruthy current then
      bulletLoop rest (items, current, nested ++ [jsTrim ((matchNested line).getD "")])
    else
      match matchTopBullet line with
      | some cap =>
        let (items', _, nested') := bulletFlush st
        bulletLoop rest (items', some (jsTrim cap), nested')
      | none =>
        match matchTopNum line with
        | some cap =>
          let (items', _, nested') := bulletFlush st
          bulletLoop rest (items', some (jsTrim cap), nested')
        | none =>
          -- wrapped text continues the active top-level bullet
          if currentTruthy current then
            bulletLoop rest
              (items, some (jsTrim ((current.getD "") ++ " " ++ trimmed)), nested)
          else bulletLoop rest st

/-- The body shared by `toBulletArray` and `toBullets` (the argument is
optional in the source; `undefined` and `""` both short-circuit to `[]`). -/
def bulletItems : Option String → List String
  | none => []
  | some s =>
    if s = "" then []
    else bulletLoop (splitNl (normalizeCrLf s)) ([], none, [])

/-- `toBulletArray` from `src/repo/sections.ts`. -/
def toBulletArray (sectionMarkdown : Option String) : List String :=
  bulletItems sectionMarkdown

/-- `toBullets` from `src/repo/globalRules.ts` (textually identical to
`toBulletArray`). -/
def toBullets (sectionMarkdown : Option String) : List String :=
  bulletItems sectionMarkdown

/-- The `rawByKey` accumulator of `extractSections`. -/
structure RawSections where
  use_when : Option String := none
  do_not_use_when : Option String := none
  must_haves : Option String := none
  customizable : Option String := none
  donts : Option String := none
  golden_pattern : Option String := none
deriving Repr, DecidableEq

/-- `rawByKey[key] = (part.body ?? "").trim()` for one recognized part. -/
def assignRaw (r : RawSections) (k : SectionKey) (body : String) : RawSections :=
  match k with
  | .use_when => { r with use_when := some (jsTrim body) }
  | .do_not_use_when => { r with do_not_use_when := some (jsTrim body) }
  | .must_haves => { r with must_haves := some (jsTrim body) }
  | .customizable => { r with customizable := some (jsTrim body) }
  | .donts => { r with donts := some (jsTrim body) }
  | .golden => { r with golden_pattern := some (jsTrim body) }

/-- The heading key a `splitByH2` part is filed under (lower-cased, trimmed;
the preamble's missing heading becomes `""`). -/
def partKey (part : Option String × String) : Option SectionKey :=
  headingToKey (jsLower (jsTrim (part.1.getD "")))

/-- The `for (const part of parts)` loop of `extractSections`. -/
def collectRawSections (parts : List (Option String × String)) : RawSections :=
  parts.foldl
    (fun r part =>
      match partKey part with
      | some k => assignRaw r k part.2
      | none => r)
    {}

/-- `extractSections` from `src/repo/sections.ts`. -/
def extractSections (markdownBody : String) : ParsedSections :=
  let normalized := normalizeCrLf markdownBody
  let rawByKey := collectRawSections (splitByH2 normalized)
  let golden := jsTrim (rawByKey.golden_pattern.getD "")
  { use_when := toBulletArray rawByKey.use_when
    do_not_use_when := toBulletArray rawByKey.do_not_use_when
    must_haves := toBulletArray rawByKey.must_haves
    customizable := toBulletArray rawByKey.customizable
    donts := toBulletArray rawByKey.donts
    golden_pattern := if golden.length > 0 then some golden else none }

/-! ## Frontmatter extraction (external `gray-matter` dependency)

The repository delegates frontmatter extraction to the external
`gray-matter` package, whose code is not part of this repository.  The
component is therefore modelled from the specification (§4.2). -/

/-- The decoded `apply_policy` frontmatter object, as handed to
`parseApplyPolicy` (an `instruction` string and a `scopes_in_order`
string array, each optional). -/
structure RawApplyPolicy where
  instruction : Option String := none
  scopes_in_order : Option (List String) := none
deriving Repr, DecidableEq

/-- The frontmatter fields the repository reads off the parsed metadata
object.  A field is `none` when absent or not of the type the consumer's
`typeof` / `Array.isArray` test expects. -/
structure FrontmatterData where
  id : Option String := none
  stack : Option String := none
  status : Option String := none
  summary : Option String := none
  rule_set : Option String := none
  cache_ttl_seconds : Option Nat := none
  tags : Option (List String) := none
  aliases : Option (List String) := none
  apply_policy : Option RawApplyPolicy := none
deriving Repr, DecidableEq

/-- Scalar decoding: quoted or unquoted, trimmed. -/
def fmScalar (v : String) : String :=
  let t := jsTrim v
  match t.data with
  | '"' :: rest => if rest ≠ [] ∧ rest.getLast? = some '"' then ⟨rest.dropLast⟩ else t
  | '\'' :: rest => if rest ≠ [] ∧ rest.getLast? = some '\'' then ⟨rest.dropLast⟩ else t
  | _ => t

/-- Single-line bracketed array decoding: `[a, b, c]` becomes the list of
trimmed entries with empty entries dropped; anything else is not an
array. -/
def fmArray (v : String) : Option (List String) :=
  let t := jsTrim v
  match t.data with
  | '[' :: rest =>
    if rest.getLast? = some ']' then
      some (((splitCharList ',' rest.dropLast).map
        (fun seg => fmScalar ⟨seg⟩)).filter (fun s => s ≠ ""))
    else none
  | _ => none

/-- Digits-only number decoding (for `cache_ttl_seconds`). -/
def fmNat (v : String) : Option Nat :=
  let t := jsTrim v
  if t.data ≠ [] ∧ t.data.all Char.isDigit then
    some (t.data.foldl (fun n c => n * 10 + (c.toNat - '0'.toNat)) 0)
  else none

/-- Splits a `key: value` metadata line. -/
def fmKeyValue (l : String) : Option (String × String) :=
  match splitCharList ':' l.data with
  | k :: rest =>
    if rest.isEmpty then none
    else some (jsTrim ⟨k⟩, ⟨(joinSep ":" (rest.map (fun r => (⟨r⟩ : String)))).data⟩)
  | [] => none

/-- Decodes the indented block under an `apply_policy:` key. -/
def fmApplyPolicy (lines : List String) : RawApplyPolicy :=
  lines.foldl
    (fun acc l =>
      match fmKeyValue l with
      | some (k, v) =>
        if k = "instruction" then { acc with instruction := some (fmScalar v) }
        else if k = "scopes_in_order" then
          match fmArray v with
          | some arr => { acc with scopes_in_order := some arr }
          | none => acc
        else acc
      | none => acc)
    {}

/-- One top-level metadata line (with, for `apply_policy`, its indented
continuation lines). -/
def fmAssign (d : FrontmatterData) (k v : String) (cont : List String) :
    FrontmatterData :=
  if k = "id" then { d with id := some (fmScalar v) }
  else if k = "stack" then { d with stack := some (fmScalar v) }
  else if k = "status" then { d with status := some (fmScalar v) }
  else if k = "summary" then { d with summary := some (fmScalar v) }
  else if k = "rule_set" then { d with rule_set := some (fmScalar v) }
  else if k = "cache_ttl_seconds" then { d with cache_ttl_seconds := fmNat v }
  else if k = "tags" then { d with tags := fmArray v }
  else if k = "aliases" then { d with aliases := fmArray v }
  else if k = "apply_policy" then { d with apply_policy := some (fmApplyPolicy cont) }
  else d

/-- Is a line indented (continuation of a nested block)? -/
def fmIndented (l : String) : Bool :=
  match l.data with
  | c :: _ => isWs c
  | [] => false

def fmLines : List String → FrontmatterData → FrontmatterData
  | [], d => d
  | l :: rest, d =>
    if fmIndented l then fmLines rest d
    else
      match fmKeyValue l with
      | some (k, v) => fmLines rest (fmAssign d k v (rest.takeWhile fmIndented))
      | none => fmLines rest d

/-- Modelled from the spec: the Frontmatter Extractor (§4.2), implemented
in the repository by the external `gray-matter` dependency (absent from
the source tree).  The document must begin with a three-dash fence line;
if absent, extraction fails; otherwise the lines between the opening and
closing `---` fences are decoded (scalars, bracketed arrays, the nested
`apply_policy` object) and the remainder is the body. -/
def matter (doc : String) : Except String (FrontmatterData × String) :=
  match splitNl doc with
  | [] => .error "Frontmatter missing opening '---' fence."
  | first :: rest =>
    if jsTrim first ≠ "---" then .error "Frontmatter missing opening '---' fence."
    else
      match rest.findIdx? (fun l => jsTrim l = "---") with
      | none => .error "Frontmatter missing closing '---' fence."
      | some i =>
        .ok (fmLines (rest.take i) {}, joinSep "\n" (rest.drop (i + 1)))

/-! ## src/repo/globalRules.ts — Global-Rule Mapper -/

/-- A fenced code block (`{language, code}`). -/
structure CodeBlock where
  language : String
  code : String
deriving Repr, DecidableEq

/-- `CodeSnippet` of the v1 contract. -/
structure CodeSnippet where
  language : String
  code : String
deriving Repr, DecidableEq

/-- `GlobalRule` of the v1 contract (`RuleScope` values are kept as
strings, validated against `ALLOWED_SCOPES`). -/
structure GlobalRule where
  id : String
  title : String
  scope : List String
  must_haves : List String
  donts : List String
  acceptance_checks : List String
  snippets : List CodeSnippet
deriving Repr, DecidableEq

/-- `GlobalRulesMeta` of the v1 contract. -/
structure ApplyPolicy where
  instruction : Option String := none
  scopes_in_order : Option (List String) := none
deriving Repr, DecidableEq

structure GlobalRulesMeta where
  id : String
  stack : String
  rule_set : Option String := none
  status : Option String := none
  summary : Option String := none
  cache_ttl_seconds : Option Nat := none
  apply_policy : Option ApplyPolicy := none
deriving Repr, DecidableEq

structure ParseGlobalRulesResult where
  meta : GlobalRulesMeta
  rules : List GlobalRule
deriving Repr, DecidableEq

/-- `ALLOWED_SCOPES` from `src/repo/globalRules.ts`. -/
def ALLOWED_SCOPES : List String := ["utility", "style", "component", "layout", "page"]

/-- The four-value `PatternStatus` enum. -/
def PATTERN_STATUSES : List String := ["alpha", "beta", "stable", "deprecated"]

def normalizeScopeToken (raw : String) : String := jsLower (jsTrim raw)

/-- `assertIsRuleScope` from `src/repo/globalRules.ts`. -/
def assertIsRuleScope (value ctx : String) : Except String String :=
  let v := normalizeScopeToken value
  if v ∈ ALLOWED_SCOPES then .ok v
  else .error (ctx ++ ": invalid scope '" ++ value ++ "'. Allowed: " ++
    joinSep ", " ALLOWED_SCOPES)

/-- Sequential map with exception propagation (the behaviour of mapping a
throwing callback over an array: the first throw aborts the whole
operation). -/
def exceptMapM (f : α → Except String β) : List α → Except String (List β)
  | [] => .ok []
  | x :: xs => do
    let y ← f x
    let ys ← exceptMapM f xs
    .ok (y :: ys)

/-- `toRuleScopeArray` from `src/repo/globalRules.ts`: validate every
token, de-dupe (`Array.from(new Set(out))`) and sort deterministically. -/
def toRuleScopeArray (raw : List String) (ctx : String) : Except String (List String) := do
  let out ← exceptMapM (fun s => assertIsRuleScope s ctx) raw
  return jsSort strLe (jsSetDedup out)

/-- `parseStringArray` from `src/repo/globalRules.ts`. -/
def parseStringArray (value : Option (List String)) : Option (List String) :=
  match value with
  | none => none
  | some arr =>
    let a := (arr.map jsTrim).filter (fun s => s ≠ "")
    if a.isEmpty then none else some a

/-- `parseApplyPolicy` from `src/repo/globalRules.ts`. -/
def parseApplyPolicy (value : Option RawApplyPolicy) (ctx : String) :
    Except String (Option ApplyPolicy) :=
  match value with
  | none => .ok none
  | some v => do
    let instruction := v.instruction
    let rawScopes := parseStringArray v.scopes_in_order
    let scopes_in_order ←
      match rawScopes with
      | some rs => do
        let l ← toRuleScopeArray rs (ctx ++ ": apply_policy.scopes_in_order")
        pure (some l)
      | none => pure none
    -- `if (instruction) ...` / `if (scopes_in_order) ...`: empty string is falsy
    let instruction :=
      match instruction with
      | some i => if i = "" then none else some i
      | none => none
    if instruction = none ∧ scopes_in_order = none then pure none
    else pure (some { instruction, scopes_in_order })

/-! ### Fenced code block scanners

`firstFencedBlock` and `allFencedBlocks` apply the regexes
`{triple-backtick}LANG\s*\n([\s\S]*?)\n?{triple-backtick}` to the raw
(not line-split) text.  The scanners below implement the backtracking
behaviour of those regexes: the opening fence must be followed by a
whitespace run containing a newline (content starts after the last such
newline), and the lazy body ends at the first `\n?` + triple-backtick. -/

def backticks3 : List Char := ['`', '`', '`']

/-- Finds the earliest end of a lazy `([\s\S]*?)\n?` + closing fence:
returns the captured body and the remainder after the closing fence. -/
def fenceClose : List Char → Option (List Char × List Char)
  | [] => none
  | c :: cs =>
    if c = '\n' ∧ backticks3.isPrefixOf cs then some ([], cs.drop 3)
    else if backticks3.isPrefixOf (c :: cs) then some ([], (c :: cs).drop 3)
    else
      match fenceClose cs with
      | some (code, rem) => some (c :: code, rem)
      | none => none

/-- Index of the last `'\n'` in a character run. -/
def lastNlIdx (l : List Char) : Option Nat :=
  (l.reverse.findIdx? (fun c => c = '\n')).map (fun j => l.length - 1 - j)

/-- Opening-fence match for a fixed language tag (case-insensitive, as in
`firstFencedBlock`'s `i` flag): on success returns the body start. -/
def fenceOpenLang (lang : List Char) (l : List Char) : Option (List Char) :=
  if backticks3.isPrefixOf l then
    let after := l.drop 3
    if (after.take lang.length).map lowerChar = lang.map lowerChar then
      let rest := after.drop lang.length
      match lastNlIdx (rest.takeWhile isWs) with
      | some k => some (rest.drop (k + 1))
      | none => none
    else none
  else none

/-- `firstFencedBlock` from `src/repo/globalRules.ts`: first fenced block
with the given language tag. -/
def firstFencedGo (lang : List Char) : List Char → Option (List Char)
  | [] => none
  | c :: cs =>
    match fenceOpenLang lang (c :: cs) with
    | some content =>
      match fenceClose content with
      | some (code, _) => some code
      | none => firstFencedGo lang cs
    | none => firstFencedGo lang cs

def firstFencedBlock (markdown language : String) : Option CodeBlock :=
  (firstFencedGo language.data markdown.data).map
    (fun code => { language := jsLower language, code := jsTrim ⟨code⟩ })

/-- The character class `[a-zA-Z0-9_-]` of `allFencedBlocks`'s language
group. -/
def isLangChar (c : Char) : Bool := c.isAlphanum ∨ c = '_' ∨ c = '-'

/-- Opening-fence match with an optional language group: returns the
language run and the body start. -/
def fenceOpenAny (l : List Char) : Option (List Char × List Char) :=
  if backticks3.isPrefixOf l then
    let after := l.drop 3
    let langRun := after.takeWhile isLangChar
    let rest := after.drop langRun.length
    match lastNlIdx (rest.takeWhile isWs) with
    | some k => some (langRun, rest.drop (k + 1))
    | none => none
  else none

/-- `allFencedBlocks` from `src/repo/globalRules.ts`: the global-flag scan
collecting every fenced block, continuing after each match.  The fuel is
only a structural-recursion device: every step consumes at least one
character, so the initial `length + 1` fuel never runs out. -/
def allFencedGo : Nat → List Char → List (List Char × List Char)
  | 0, _ => []
  | _ + 1, [] => []
  | fuel + 1, c :: cs =>
    match fenceOpenAny (c :: cs) with
    | some (langRun, content) =>
      match fenceClose content with
      | some (code, rem) => (langRun, code) :: allFencedGo fuel rem
      | none => allFencedGo fuel cs
    | none => allFencedGo fuel cs

def allFencedBlocks (markdown : String) : List CodeBlock :=
  (allFencedGo (markdown.data.length + 1) markdown.data).map
    (fun p =>
      let language := jsLower (jsTrim ⟨p.1⟩)
      { language := if language = "" then "text" else language
        code := jsTrim ⟨p.2⟩ })

/-! ### Rule-block YAML micro-parser (`parseRuleYaml`)

The source applies multiline (`/m`) regexes to the yaml text; since none
of the patterns can produce a match spanning a line boundary with a
distinct capture, the search is modelled line-by-line (first matching
line wins, as for the leftmost regex match). -/

/-- `/^\s*id:\s*(.+)\s*$/m` — the (untrimmed) capture of an `id:` line. -/
def matchIdLine (l : String) : Option String :=
  let t := l.data.dropWhile isWs
  if "id:".data.isPrefixOf t then
    let rest := t.drop 3
    if rest.isEmpty then none else some ⟨rest.dropWhile isWs⟩
  else none

/-- `/^\s*scope:\s*\[(.*)\]\s*$/m` — the capture between the brackets of
an inline scope array line. -/
def matchScopeInline (l : String) : Option String :=
  let t := l.data.dropWhile isWs
  if "scope:".data.isPrefixOf t then
    match (t.drop 6).dropWhile isWs with
    | '[' :: inner =>
      match (inner.reverse.dropWhile isWs) with
      | ']' :: revContent => some ⟨revContent.reverse⟩
      | _ => none
    | _ => none
  else none

/-- `/^\s*scope:\s*$/` — a block-style `scope:` line. -/
def matchScopeBlockLine (l : String) : Bool :=
  let t := l.data.dropWhile isWs
  "scope:".data.isPrefixOf t ∧ (t.drop 6).all isWs

/-- `/^\S+\s*:/` — does a new top-level key begin on this line? -/
def topKeyTest (l : String) : Bool :=
  match l.data with
  | [] => false
  | c :: _ =>
    if isWs c then false
    else
      let run := l.data.takeWhile (fun d => ¬ isWs d)
      (run.drop 1).contains ':' ∨
        ((l.data.drop run.length).dropWhile isWs).head? = some ':'

/-- `/^\s*-\s*(.+)\s*$/` — a dash list item (trimmed capture, matching
`m[1].trim()` at the use site). -/
def matchDashItem (l : String) : Option String :=
  match l.data.dropWhile isWs with
  | '-' :: rest =>
    if rest.isEmpty then none else some (jsTrim ⟨rest.dropWhile isWs⟩)
  | _ => none

/-- `parseRuleYaml` from `src/repo/globalRules.ts`. -/
def parseRuleYaml (yamlText ctx : String) : Except String (String × List String) :=
  let lines := splitNl yamlText
  let id := (lines.findSome? matchIdLine).map jsTrim |>.getD ""
  match lines.findSome? matchScopeInline with
  | some inner =>
    -- scope: [a, b]
    let raw := ((splitCharList ',' inner.data).map
      (fun seg => jsTrim ⟨seg⟩)).filter (fun s => s ≠ "")
    (toRuleScopeArray raw (ctx ++ ": scope")).map (fun scope => (id, scope))
  | none =>
    -- scope: \n  - a \n  - b
    if lines.any matchScopeBlockLine then
      match lines.findIdx? matchScopeBlockLine with
      | some startIndex =>
        let upto := (lines.drop (startIndex + 1)).takeWhile (fun l => ¬ topKeyTest l)
        let raw := upto.filterMap matchDashItem
        (toRuleScopeArray raw (ctx ++ ": scope")).map (fun scope => (id, scope))
      | none => .ok (id, [])
    else .ok (id, [])

/-! ### Rule-block splitting and assembly -/

/-- The `splitByH2Rule` line loop (state: blocks, currentTitle,
currentBody). -/
def splitByH2RuleLoop (lines : List String)
    (st : List (String × String) × Option String × List String) :
    List (String × String) :=
  match lines with
  | [] =>
    let (blocks, currentTitle, currentBody) := st
    match currentTitle with
    | some t => blocks ++ [(t, jsTrim (joinSep "\n" currentBody))]
    | none => blocks
  | line :: rest =>
    let (blocks, currentTitle, currentBody) := st
    match matchRuleH2 line with
    | some cap =>
      let blocks' :=
        match currentTitle with
        | some t => blocks ++ [(t, jsTrim (joinSep "\n" currentBody))]
        | none => blocks
      splitByH2RuleLoop rest (blocks', some (jsTrim cap), [])
    | none =>
      match currentTitle with
      | some _ => splitByH2RuleLoop rest (blocks, currentTitle, currentBody ++ [line])
      | none => splitByH2RuleLoop rest st

/-- `splitByH2Rule` from `src/repo/globalRules.ts`. -/
def splitByH2Rule (markdown : String) : List (String × String) :=
  splitByH2RuleLoop (splitNl markdown) ([], none, [])

/-- The `splitByH3` line loop (state: out, currentKey, currentBody).  The
JS object assignment `out[k] = v` is modelled by appending and reading the
last binding back (`h3Get`). -/
def splitByH3Loop (lines : List String)
    (st : List (String × String) × Option String × List String) :
    List (String × String) :=
  match lines with
  | [] =>
    let (out, currentKey, currentBody) := st
    match currentKey with
    | some k => out ++ [(k, jsTrim (joinSep "\n" currentBody))]
    | none => out
  | line :: rest =>
    let (out, currentKey, currentBody) := st
    match matchH3 line with
    | some cap =>
      let out' :=
        match currentKey with
        | some k => out ++ [(k, jsTrim (joinSep "\n" currentBody))]
        | none => out
      splitByH3Loop rest (out', some (jsLower (jsTrim cap)), [])
    | none =>
      match currentKey with
      | some _ => splitByH3Loop rest (out, currentKey, currentBody ++ [line])
      | none => splitByH3Loop rest st

/-- `splitByH3` from `src/repo/globalRules.ts`. -/
def splitByH3 (markdown : String) : List (String × String) :=
  splitByH3Loop (splitNl markdown) ([], none, [])

/-- `sections["key"]` — the last assignment wins. -/
def h3Get (sections : List (String × String)) (k : String) : Option String :=
  (sections.reverse.find? (fun p => p.1 = k)).map (fun p => p.2)

/-- `parseOneRule` from `src/repo/globalRules.ts`. -/
def parseOneRule (block : String × String) : Except String GlobalRule :=
  let (title, body) := block
  match firstFencedBlock body "yaml" with
  | none =>
    .error ("Rule '" ++ title ++ "' is missing a ```yaml fenced block with 'id' and 'scope'.")
  | some yamlFence => do
    let (id, scope) ← parseRuleYaml yamlFence.code ("Rule '" ++ title ++ "'")
    if id = "" then
      .error ("Rule '" ++ title ++ "' yaml block is missing 'id'.")
    else if scope.isEmpty then
      .error ("Rule '" ++ title ++ "' yaml block is missing 'scope'.")
    else
      let sections := splitByH3 body
      let must_haves := toBullets (h3Get sections "must haves")
      let donts := toBullets ((h3Get sections "don'ts").orElse (fun _ => h3Get sections "donts"))
      let acceptance_checks := toBullets (h3Get sections "acceptance checks")
      let snippetsMarkdown := (h3Get sections "snippets").getD ""
      let snippets := jsSort
        (fun a b => strLe (a.language ++ "\n" ++ a.code) (b.language ++ "\n" ++ b.code))
        ((allFencedBlocks snippetsMarkdown).map
          (fun b => ({ language := b.language, code := b.code } : CodeSnippet)))
      .ok { id, title, scope, must_haves, donts, acceptance_checks, snippets }

/-- The duplicate-rule-id check at the end of `parseGlobalRulesMarkdown`. -/
def checkDupRuleIds : List GlobalRule → List String → Except String Unit
  | [], _ => .ok ()
  | r :: rest, seen =>
    if r.id ∈ seen then .error ("Duplicate global rule id '" ++ r.id ++ "' found.")
    else checkDupRuleIds rest (r.id :: seen)

/-- The optional status validation block of `parseGlobalRulesMarkdown`. -/
def checkMetaStatus (status : Option String) : Except String Unit :=
  match status with
  | some st =>
    if st ∈ PATTERN_STATUSES then .ok ()
    else
      .error ("Global rules frontmatter has invalid status='" ++ st ++
        "'. Allowed: " ++ joinSep ", " PATTERN_STATUSES)
  | none => .ok ()

/-- `parseGlobalRulesMarkdown` from `src/repo/globalRules.ts`. -/
def parseGlobalRulesMarkdown (fileText expectedStack : String) :
    Except String ParseGlobalRulesResult := do
  let (data, content) ← matter fileText
  let body := jsTrim (normalizeCrLf content)
  let apply_policy ← parseApplyPolicy data.apply_policy "global rules frontmatter"
  let meta : GlobalRulesMeta :=
    { id := jsTrim (data.id.getD "")
      stack := (let s := jsTrim (data.stack.getD ""); if s = "" then expectedStack else s)
      rule_set := data.rule_set
      status := data.status
      summary := data.summary
      cache_ttl_seconds := data.cache_ttl_seconds
      apply_policy := apply_policy }
  if meta.id = "" then
    .error "Global rules file missing frontmatter 'id'."
  else if meta.stack ≠ expectedStack then
    .error ("Global rules frontmatter stack='" ++ meta.stack ++
      "' does not match requested stack='" ++ expectedStack ++ "'.")
  else do
    let _ ← checkMetaStatus meta.status
    let ruleBlocks := splitByH2Rule body
    let rules ← exceptMapM parseOneRule ruleBlocks
    let rules := jsSort (fun a b => strLe a.id b.id) rules
    let _ ← checkDupRuleIds rules []
    .ok { meta := meta, rules := rules }

/-! ## src/repo/paths.ts and filesystem model -/

structure RepoPaths where
  baselinePath : String
  catalogPath : String
  componentsGlob : String
deriving Repr, DecidableEq

/-- `node:path` `join`, specialized to the POSIX separator the content
repository uses. -/
def pathJoin (xs : List String) : String := joinSep "/" xs

/-- `getRepoPaths` from `src/repo/paths.ts`. -/
def getRepoPaths (patternRepoPath stack : String) : Except String RepoPaths :=
  let parts := (splitCharList '/' stack.data).map (fun l => (⟨l⟩ : String))
  if parts.length ≠ 2 then
    .error ("Invalid stack format: " ++ stack ++ ". Expected \"group/name\" like \"web/react\".")
  else
    let root := pathJoin ([patternRepoPath, "patterns"] ++ parts)
    .ok { baselinePath := pathJoin [root, "global", "global_rules.md"]
          catalogPath := pathJoin [root, "patterns.json"]
          componentsGlob := pathJoin [root, "components", "**", "*.\x7bmd,mdx,markdown\x7d"] }

/-- `toPosixPath` from `src/utils/fs.ts` (with the POSIX `path.sep`). -/
def toPosixPath (p : String) : String :=
  joinSep "/" ((splitCharList '/' p.data).map (fun l => (⟨l⟩ : String)))

/-- The filesystem operations `buildPatternIndex` performs (`fileExists`,
`readTextFile`, and the `fast-glob` enumeration, whose order the claims
quantify over). -/
structure RepoFs where
  fileExists : String → Bool
  read : String → String
  glob : String → List String

/-- Association-list model of a JS `Map` (`set` appends; `get` reads the
last binding). -/
def mapGet {α : Type} (m : List (String × α)) (k : String) : Option α :=
  (m.reverse.find? (fun p => p.1 = k)).map (fun p => p.2)

/-! ## JSON model (`JSON.parse` is a JS builtin; its result is modelled
by an explicit `Json` tree, the parser itself by a function argument). -/

inductive Json where
  | null
  | bool (b : Bool)
  | num (n : Int)
  | str (s : String)
  | arr (xs : List Json)
  | obj (fields : List (String × Json))
deriving Inhabited

/-- Object property access (last duplicate key wins, as in `JSON.parse`). -/
def jsonGet (j : Json) (k : String) : Option Json :=
  match j with
  | .obj fields => (fields.reverse.find? (fun p => p.1 = k)).map (fun p => p.2)
  | _ => none

/-! ## src/repo/index.ts — Repository Indexer (the revision of the file
that sorts component paths and fingerprints (path, content) pairs) -/

structure SelectionExcerpt where
  use_when : List String
  do_not_use_when : List String
deriving Repr, DecidableEq

structure PatternSummary where
  id : String
  stack : String
  status : String
  summary : String
  tags : List String
  aliases : List String
  selection_excerpt : Option SelectionExcerpt := none
deriving Repr, DecidableEq

structure CacheMeta where
  catalog_revision : String
  cache_ttl_seconds : Nat
deriving Repr, DecidableEq

structure PatternIndex where
  stack : String
  cache : CacheMeta
  byId : List (String × PatternSummary)
  idToPath : List (String × String)
  all : List PatternSummary
deriving Repr, DecidableEq

/-- `s.replace(/\s+/g, " ")` — each maximal whitespace run becomes one
space (the flag records whether the previous character was whitespace). -/
def collapseWsGo : Bool → List Char → List Char
  | _, [] => []
  | prevWs, c :: rest =>
    if isWs c then
      if prevWs then collapseWsGo true rest else ' ' :: collapseWsGo true rest
    else c :: collapseWsGo false rest

def collapseWs (s : String) : String := ⟨collapseWsGo false s.data⟩

/-- `normalizeBullet` from `src/repo/index.ts`. -/
def normalizeBullet (v : Json) (maxLen : Nat) : Option String :=
  match v with
  | .str s =>
    let cleaned := jsTrim (collapseWs s)
    if cleaned = "" then none
    else if cleaned.length > maxLen then some (jsTrimEnd ⟨cleaned.data.take maxLen⟩)
    else some cleaned
  | _ => none

def normalizeBulletListGo (maxItems maxLen : Nat) : List Json → List String → List String
  | [], out => out
  | item :: rest, out =>
    let out' :=
      match normalizeBullet item maxLen with
      | some b => out ++ [b]
      | none => out
    if out'.length ≥ maxItems then out'
    else normalizeBulletListGo maxItems maxLen rest out'

/-- `normalizeBulletList` from `src/repo/index.ts`. -/
def normalizeBulletList (value : Option Json) (maxItems maxLen : Nat) : List String :=
  match value with
  | some (.arr items) => normalizeBulletListGo maxItems maxLen items []
  | _ => []

/-- `parseSelectionExcerpt` from `src/repo/index.ts`.  (A JSON array also
passes the JS `typeof === "object"` test, but has no `use_when` /
`do_not_use_when` properties, so it yields `undefined` just like the
non-object case modelled here.) -/
def parseSelectionExcerpt (value : Option Json) : Option SelectionExcerpt :=
  match value with
  | some (Json.obj fields) =>
    let use_when := normalizeBulletList (jsonGet (Json.obj fields) "use_when") 3 140
    let do_not_use_when := normalizeBulletList (jsonGet (Json.obj fields) "do_not_use_when") 3 140
    if use_when.isEmpty ∧ do_not_use_when.isEmpty then none
    else some { use_when := use_when, do_not_use_when := do_not_use_when }
  | _ => none

/-- `uniqSorted` from `src/repo/index.ts`. -/
def uniqSorted (values : List String) : List String :=
  let cleaned := (values.map jsTrim).filter (fun s => s ≠ "")
  jsSort strLe (jsSetDedup cleaned)

/-- `buildCatalogSelectionMap` from `src/repo/index.ts`; its
`JSON.parse(catalogText)` result is passed in as `parsed` (`none` for a
parse failure).  (Non-object array entries pass the JS `typeof` test but
have no string `id`, so they are skipped just like non-objects.) -/
def buildCatalogSelectionMap (parsed : Option Json) :
    Except String (List (String × SelectionExcerpt)) :=
  match parsed with
  | none => .error "patterns.json is not valid JSON."
  | some p =>
    let arr :=
      match p with
      | .arr xs => some xs
      | _ =>
        match jsonGet p "patterns" with
        | some (.arr xs) => some xs
        | _ =>
          match jsonGet p "items" with
          | some (.arr xs) => some xs
          | _ => none
    match arr with
    | none => .ok []
    | some entries =>
      .ok (entries.foldl
        (fun m entry =>
          match entry with
          | Json.obj _ =>
            let id :=
              match jsonGet entry "id" with
              | some (.str s) => jsTrim s
              | _ => ""
            if id = "" then m
            else
              match parseSelectionExcerpt (jsonGet entry "selection_excerpt") with
              | some excerpt => m ++ [(id, excerpt)]
              | none => m
          | _ => m)
        [])

/-- The canonical pre-hash string of the repo-state fingerprint
(`src/repo/index.ts` lines 139–149): label-tagged entries joined by a
double newline. -/
def catalogRevisionInput (stack baselineText catalogText : String)
    (componentPaths : List String) (textOf : String → Option String) : String :=
  joinSep "\n\n"
    (["stack:" ++ stack, "baseline:" ++ baselineText, "catalog:" ++ catalogText]
      ++ componentPaths.map (fun p => "component_path:" ++ p)
      ++ componentPaths.map (fun p => "component_text:" ++ (textOf p).getD ""))

/-- The per-component-file loop of `buildPatternIndex` (accumulators
`byId`, `idToPath`, `all`). -/
def buildIndexLoop (stack : String) (selectionById : List (String × SelectionExcerpt))
    (fileTextByPath : List (String × String)) :
    List String → List (String × PatternSummary) → List (String × String) →
    List PatternSummary →
    Except String (List (String × PatternSummary) × List (String × String) × List PatternSummary)
  | [], byId, idToPath, all => .ok (byId, idToPath, all)
  | filePath :: rest, byId, idToPath, all =>
    match mapGet fileTextByPath filePath with
    | none => .error ("Internal error: missing cached text for " ++ filePath)
    | some raw => do
      let (data, _) ← matter raw
      let id := jsTrim (data.id.getD "")
      if id = "" then
        .error ("Pattern missing 'id' in frontmatter: " ++ filePath)
      else
        let declaredStack := jsTrim (data.stack.getD "")
        let status := jsTrim (data.status.getD "")
        let summary := jsTrim (data.summary.getD "")
        let tags := data.tags.getD []
        let aliases := data.aliases.getD []
        if declaredStack ≠ "" ∧ declaredStack ≠ stack then
          .error ("Pattern " ++ id ++ " declares stack=" ++ declaredStack ++
            " but is located under stack=" ++ stack)
        else if summary = "" then
          .error ("Pattern missing 'summary' in frontmatter: " ++ filePath)
        else if status ∉ PATTERN_STATUSES then
          .error ("Invalid status '" ++ status ++ "' in " ++ filePath ++
            ". Allowed: " ++ joinSep ", " PATTERN_STATUSES)
        else
          let selection_excerpt := mapGet selectionById id
          let pattern : PatternSummary :=
            { id := id, stack := stack, status := status, summary := summary
              tags := uniqSorted tags, aliases := uniqSorted aliases
              selection_excerpt := selection_excerpt }
          if (mapGet byId id).isSome then
            .error ("Duplicate pattern id '" ++ id ++ "' found. Second copy: " ++ filePath)
          else
            buildIndexLoop stack selectionById fileTextByPath rest
              (byId ++ [(id, pattern)]) (idToPath ++ [(id, filePath)]) (all ++ [pattern])

/-- `buildPatternIndex` from `src/repo/index.ts`: `hash` models
`node:crypto` sha256 (hex digest), `parseJson` models `JSON.parse`, and
`fsm` the filesystem. -/
def buildPatternIndex (hash : String → String) (parseJson : String → Option Json)
    (fsm : RepoFs) (patternRepoPath stack : String) (cacheTtlSeconds : Nat) :
    Except String PatternIndex := do
  let rp ← getRepoPaths patternRepoPath stack
  if fsm.fileExists rp.baselinePath = false then
    .error ("Missing baseline file: " ++ rp.baselinePath)
  else if fsm.fileExists rp.catalogPath = false then
    .error ("Missing catalog file: " ++ rp.catalogPath)
  else
    -- deterministic ordering: sort file paths before reading/hashing/parsing
    let componentPaths := jsSort strLe ((fsm.glob rp.componentsGlob).map toPosixPath)
    let baselineText := fsm.read rp.baselinePath
    let catalogText := fsm.read rp.catalogPath
    let selectionById ← buildCatalogSelectionMap (parseJson catalogText)
    -- read each component once; reuse for both hashing and parsing
    let fileTextByPath := componentPaths.map (fun p => (p, fsm.read p))
    let catalog_revision := "sha256:" ++
      hash (catalogRevisionInput stack baselineText catalogText componentPaths
        (fun p => mapGet fileTextByPath p))
    let (byId, idToPath, all) ←
      buildIndexLoop stack selectionById fileTextByPath componentPaths [] [] []
    let all := jsSort (fun a b => strLe a.id b.id) all
    .ok { stack := stack
          cache := { catalog_revision := catalog_revision, cache_ttl_seconds := cacheTtlSeconds }
          byId := byId, idToPath := idToPath, all := all }

/-! ## src/tools/listPatterns.ts -/

structure ListPatternsArgs where
  stack : String
  tags : Option (List String) := none
  query : Option String := none
deriving Repr, DecidableEq

structure ListPatternsResponse where
  contract_version : String
  stack : String
  catalog_revision : String
  cache_ttl_seconds : Nat
  count : Nat
  patterns : List PatternSummary
deriving Repr, DecidableEq

/-- `listPatterns` from `src/tools/listPatterns.ts`. -/
def listPatterns (index : PatternIndex) (args : ListPatternsArgs) :
    Except String ListPatternsResponse :=
  if args.stack ≠ index.stack then
    .error ("Stack mismatch. Index=" ++ index.stack ++ ", requested=" ++ args.stack)
  else
    let results := index.all
    let results :=
      match args.tags with
      | some tags =>
        if tags.length > 0 then
          let wanted := tags.map jsLower
          results.filter (fun p => p.tags.any (fun t => jsLower t ∈ wanted))
        else results
      | none => results
    let results :=
      match args.query with
      | some query =>
        if jsTrim query ≠ "" then
          let q := jsLower query
          results.filter (fun p =>
            jsIncludes (jsLower p.id) q ∨ jsIncludes (jsLower p.summary) q ∨
              p.aliases.any (fun a => jsIncludes (jsLower a) q))
        else results
      | none => results
    let results := jsSort (fun a b => strLe a.id b.id) results
    .ok { contract_version := "1.0", stack := args.stack
          catalog_revision := index.cache.catalog_revision
          cache_ttl_seconds := index.cache.cache_ttl_seconds
          count := results.length, patterns := results }

/-! ## src/tools/getPattern.ts -/

structure GetPatternArgs where
  stack : String
  id : String
deriving Repr, DecidableEq

structure PatternDetail where
  id : String
  stack : String
  status : String
  summary : String
  tags : List String
  aliases : List String
  sections : ParsedSections
  source_relative_path : String
deriving Repr, DecidableEq

structure GetPatternResponse where
  contract_version : String
  catalog_revision : String
  cache_ttl_seconds : Nat
  pattern : PatternDetail
deriving Repr, DecidableEq

/-- `makeRelativePath` from `src/repo/index.ts` (`node:path`'s `relative`
is a builtin, passed as an argument). -/
def makeRelativePath (relative : String → String → String)
    (patternRepoPath filePath : String) : String :=
  toPosixPath (relative patternRepoPath filePath)

/-- `getPattern` from `src/tools/getPattern.ts` (`read` models
`readTextFile`, `relative` models `node:path` `relative`). -/
def getPattern (relative : String → String → String) (index : PatternIndex)
    (read : String → String) (patternRepoPath : String) (args : GetPatternArgs) :
    Except String GetPatternResponse :=
  if args.stack ≠ index.stack then
    .error ("Stack mismatch. Index=" ++ index.stack ++ ", requested=" ++ args.stack)
  else
    match mapGet index.idToPath args.id with
    | none =>
      .error ("PATTERN_NOT_FOUND: No pattern with id '" ++ args.id ++
        "' for stack '" ++ args.stack ++ "'")
    | some filePath => do
      let raw := read filePath
      let (data, content) ← matter raw
      let patternId := jsTrim (data.id.getD "")
      let status := jsTrim (data.status.getD "")
      let summary := jsTrim (data.summary.getD "")
      let tags := data.tags.getD []
      let aliases := data.aliases.getD []
      if patternId = "" then
        .error ("Pattern missing 'id' in frontmatter: " ++ filePath)
      else if patternId ≠ args.id then
        .error ("Pattern id mismatch. Requested '" ++ args.id ++ "', file declares '" ++
          patternId ++ "' (" ++ filePath ++ ")")
      else
        let declaredStack := jsTrim (data.stack.getD "")
        if declaredStack ≠ "" ∧ declaredStack ≠ args.stack then
          .error ("Pattern '" ++ args.id ++ "' declares stack='" ++ declaredStack ++
            "' but is served under stack='" ++ args.stack ++ "'. File: " ++ filePath)
        else if summary = "" then
          .error ("Pattern missing 'summary' in frontmatter: " ++ filePath)
        else
          let sections := extractSections content
          .ok { contract_version := "1.0"
                catalog_revision := index.cache.catalog_revision
                cache_ttl_seconds := index.cache.cache_ttl_seconds
                pattern :=
                  { id := args.id, stack := args.stack, status := status, summary := summary
                    tags := tags, aliases := aliases, sections := sections
                    source_relative_path := makeRelativePath relative patternRepoPath filePath } }

/-! ## src/tools/getGlobalRules.ts (the revision with scope filtering) -/

/-- `args.scope` may be a single tag or a list. -/
inductive ScopeArg where
  | one (s : String)
  | many (l : List String)
deriving Repr, DecidableEq

/-- `normalizeScope` from `src/tools/getGlobalRules.ts`.  The JS
`if (!scope) return null` treats a missing scope *and* the falsy empty
string as "no filter"; an array (even an empty one) is truthy and is
kept as the filter list. -/
def normalizeScope : Option ScopeArg → Option (List String)
  | none => none
  | some (.one s) => if s = "" then none else some [s]
  | some (.many l) => some l

structure GetGlobalRulesArgs where
  stack : String
  scope : Option ScopeArg := none
deriving Repr, DecidableEq

structure RulesPayload where
  scope_filter : Option (List String)
  items : List GlobalRule
deriving Repr, DecidableEq

structure GetGlobalRulesResponse where
  contract_version : String
  stack : String
  catalog_revision : String
  cache_ttl_seconds : Nat
  meta : GlobalRulesMeta
  rules : RulesPayload
deriving Repr, DecidableEq

/-- `getGlobalRules` from `src/tools/getGlobalRules.ts` (`read` models
`readTextFile`). -/
def getGlobalRules (index : PatternIndex) (read : String → String)
    (patternRepoPath : String) (args : GetGlobalRulesArgs) :
    Except String GetGlobalRulesResponse :=
  if args.stack ≠ index.stack then
    .error ("Stack mismatch. Index=" ++ index.stack ++ ", requested=" ++ args.stack)
  else do
    let scopeFilter := normalizeScope args.scope
    let rp ← getRepoPaths patternRepoPath args.stack
    let fileText := read rp.baselinePath
    let parsed ← parseGlobalRulesMarkdown fileText args.stack
    let cache_ttl_seconds := (parsed.meta.cache_ttl_seconds).getD index.cache.cache_ttl_seconds
    let items :=
      match scopeFilter with
      | some sf => parsed.rules.filter (fun r => r.scope.any (fun s => s ∈ sf))
      | none => parsed.rules
    .ok { contract_version := "1.0", stack := args.stack
          catalog_revision := index.cache.catalog_revision
          cache_ttl_seconds := cache_ttl_seconds
          meta := parsed.meta
          rules := { scope_filter := scopeFilter, items := items } }

/-- The trimmed frontmatter id a component document declares (`""` when
its frontmatter does not parse; `buildIndexLoop` then errors before using
an id). -/
def componentId (raw : String) : String :=
  match matter raw with
  | .ok (d, _) => jsTrim (d.id.getD "")
  | .error _ => ""

/-- A component document that passes every per-file validation of
`buildIndexLoop`'s body before the duplicate-id check: the frontmatter
parses, the id is non-empty, the declared stack is absent or matches,
the summary is non-empty, and the status is an allowed one. -/
def validComponent (stack raw : String) : Bool :=
  match matter raw with
  | .error _ => false
  | .ok (d, _) =>
    decide (jsTrim (d.id.getD "") ≠ "" ∧
      (jsTrim (d.stack.getD "") = "" ∨ jsTrim (d.stack.getD "") = stack) ∧
      jsTrim (d.summary.getD "") ≠ "" ∧
      jsTrim (d.status.getD "") ∈ PATTERN_STATUSES)

/-- The `PatternSummary` record `buildIndexLoop`'s body constructs for a
component whose frontmatter decoded to `d`. -/
def componentSummary (stack : String) (sel : List (String × SelectionExcerpt))
    (d : FrontmatterData) : PatternSummary :=
  { id := jsTrim (d.id.getD ""), stack := stack
    status := jsTrim (d.status.getD ""), summary := jsTrim (d.summary.getD "")
    tags := uniqSorted (d.tags.getD []), aliases := uniqSorted (d.aliases.getD [])
    selection_excerpt := mapGet sel (jsTrim (d.id.getD "")) }

/-! ## Concrete fixtures used by the witness theorems -/

/-- The baseline-rules document of the spec's §8 example scenario. -/
def exampleGlobalDoc : String :=
  "---\nid: global_ruleset.baseline\nstack: web/react\ncache_ttl_seconds: 86400\n---\n\n## Rule: Page Title\n\n```yaml\nid: global.page-title\nscope: [page]\n```\n\n### Must Haves\n- Every page has a title\n- Title is unique\n"

/-- A valid component pattern document. -/
def exampleDocA : String :=
  "---\nid: alpha.one\nstatus: beta\nsummary: first\ntags: [x, y]\n---\n\n## Use When\n- A\n"

/-- A second valid component pattern document. -/
def exampleDocB : String :=
  "---\nid: beta.two\nstatus: stable\nsummary: second\n---\nbody"

/-- A component document duplicating `exampleDocA`'s id. -/
def exampleDocDup : String :=
  "---\nid: alpha.one\nstatus: beta\nsummary: dup\n---\nbody"

/-- A concrete two-component repository filesystem. -/
def exampleFs : RepoFs :=
  { fileExists := fun _ => true
    read := fun p =>
      if p = "r/patterns/web/react/components/b.md" then exampleDocB
      else if p = "r/patterns/web/react/components/a.md" then exampleDocA
      else if p = "r/patterns/web/react/global/global_rules.md" then exampleGlobalDoc
      else if p = "r/patterns/web/react/patterns.json" then "[]"
      else ""
    glob := fun _ =>
      ["r/patterns/web/react/components/b.md", "r/patterns/web/react/components/a.md"] }

/-- `exampleFs` with the glob enumerating the same files in the other
order. -/
def exampleFsSwapped : RepoFs :=
  { exampleFs with
    glob := fun _ =>
      ["r/patterns/web/react/components/a.md", "r/patterns/web/react/components/b.md"] }

/-- `exampleFs` with the second component re-declaring the first's id. -/
def exampleFsDup : RepoFs :=
  { exampleFs with
    read := fun p =>
      if p = "r/patterns/web/react/components/b.md" then exampleDocDup
      else exampleFs.read p }

/-- A trivially successful `JSON.parse` model for the `[]` catalog. -/
def exampleParseJson : String → Option Json := fun _ => some (Json.arr [])

/-- A small concrete index (as the query tools receive one). -/
def exampleIndex : PatternIndex :=
  { stack := "web/react"
    cache := { catalog_revision := "sha256:r", cache_ttl_seconds := 60 }
    byId := []
    idToPath := [("alpha.one", "r/patterns/web/react/components/a.md")]
    all := [] }

/-- The identity "hash", which is injective, for witnessing fingerprint
claims. -/
def idHash : String → String := fun s => s

/-! ## Helper lemmas -/

theorem char_lt_iff_toNat_lt (a b : Char) : a < b ↔ a.toNat < b.toNat := Iff.rfl

theorem char_eq_of_toNat_eq (a b : Char) (h : a.toNat = b.toNat) : a = b :=
  Char.eq_of_val_eq (UInt32.ext h)

theorem charListLe_iff : ∀ l₁ l₂ : List Char,
    charListLe l₁ l₂ = true ↔ ¬ List.Lex (fun x y => x < y) l₂ l₁ := by
  intro l₁
  induction l₁ with
  | nil =>
    intro l₂
    simp only [charListLe, true_iff]
    intro h
    cases h
  | cons a as ih =>
    intro l₂
    match l₂ with
    | [] =>
      simp only [charListLe]
      constructor
      · intro h; exact absurd h (by simp)
      · intro h; exact absurd (List.Lex.nil) h
    | b :: bs =>
      simp only [charListLe]
      by_cases hab : a.toNat < b.toNat
      · simp only [if_pos hab, true_iff]
        intro hlex
        cases hlex with
        | rel hba =>
          have := (char_lt_iff_toNat_lt b a).mp hba
          omega
        | cons _ => omega
      · simp only [if_neg hab]
        by_cases hba : b.toNat < a.toNat
        · simp only [if_pos hba, Bool.false_eq_true, false_iff, not_not]
          exact List.Lex.rel ((char_lt_iff_toNat_lt b a).mpr hba)
        · have hEq : b = a := char_eq_of_toNat_eq b a (by omega)
          subst hEq
          simp only [if_neg hba]
          rw [ih bs]
          constructor
          · intro h hlex
            cases hlex with
            | rel hbb => exact absurd ((char_lt_iff_toNat_lt b b).mp hbb) (by omega)
            | cons htail => exact h htail
          · intro h hlex
            exact h (List.Lex.cons hlex)

/-- `strLe` is the standard lexicographic order on `String`. -/
theorem strLe_iff (a b : String) : strLe a b = true ↔ a ≤ b := by
  rw [strLe, charListLe_iff]
  rw [String.le_iff_toList_le]
  constructor
  · intro h
    exact not_lt.mp (fun hlt => h hlt)
  · intro h hlex
    exact absurd (show b.toList < a.toList from hlex) (not_lt.mpr h)

theorem strLe_trans : ∀ a b c : String, strLe a b = true → strLe b c = true →
    strLe a c = true := by
  intro a b c h1 h2
  rw [strLe_iff] at *
  exact le_trans h1 h2

theorem strLe_total : ∀ a b : String, (strLe a b || strLe b a) = true := by
  intro a b
  simp only [Bool.or_eq_true, strLe_iff]
  exact le_total a b

theorem keyLe_trans (f : α → String) : ∀ a b c : α,
    strLe (f a) (f b) = true → strLe (f b) (f c) = true → strLe (f a) (f c) = true :=
  fun a b c => strLe_trans (f a) (f b) (f c)

theorem keyLe_total (f : α → String) : ∀ a b : α,
    (strLe (f a) (f b) || strLe (f b) (f a)) = true :=
  fun a b => strLe_total (f a) (f b)

theorem jsSetDedupGo_mem : ∀ (l seen : List String) (y : String),
    y ∈ jsSetDedupGo seen l → y ∈ l ∧ y ∉ seen := by
  intro l
  induction l with
  | nil => intro seen y hy; simp [jsSetDedupGo] at hy
  | cons x xs ih =>
    intro seen y hy
    simp only [jsSetDedupGo] at hy
    split at hy
    · obtain ⟨h1, h2⟩ := ih seen y hy
      exact ⟨List.mem_cons_of_mem _ h1, h2⟩
    · rename_i hxseen
      rcases List.mem_cons.mp hy with rfl | hy'
      · exact ⟨List.mem_cons_self _ _, hxseen⟩
      · obtain ⟨h1, h2⟩ := ih (seen ++ [x]) y hy'
        exact ⟨List.mem_cons_of_mem _ h1,
          fun hm => h2 (List.mem_append_left _ hm)⟩

theorem jsSetDedup_subset : ∀ l : List String, ∀ y ∈ jsSetDedup l, y ∈ l :=
  fun l y hy => (jsSetDedupGo_mem l [] y hy).1

theorem jsSetDedupGo_nodup : ∀ (l seen : List String), (jsSetDedupGo seen l).Nodup := by
  intro l
  induction l with
  | nil => intro seen; simp [jsSetDedupGo]
  | cons x xs ih =>
    intro seen
    simp only [jsSetDedupGo]
    split
    · exact ih seen
    · refine List.nodup_cons.mpr ⟨fun hx => ?_, ih (seen ++ [x])⟩
      exact (jsSetDedupGo_mem xs (seen ++ [x]) x hx).2
        (List.mem_append_right _ (List.mem_singleton.mpr rfl))

theorem jsSetDedup_nodup : ∀ l : List String, (jsSetDedup l).Nodup :=
  fun l => jsSetDedupGo_nodup l []

theorem insertSorted_perm (le : α → α → Bool) (x : α) :
    ∀ l : List α, (insertSorted le x l).Perm (x :: l) := by
  intro l
  induction l with
  | nil => exact List.Perm.refl _
  | cons y ys ih =>
    simp only [insertSorted]
    split
    · exact List.Perm.refl _
    · exact (List.Perm.cons y ih).trans (List.Perm.swap x y ys)

theorem jsSort_perm (le : α → α → Bool) : ∀ l : List α, (jsSort le l).Perm l := by
  intro l
  induction l with
  | nil => exact List.Perm.refl _
  | cons x xs ih =>
    exact (insertSorted_perm le x (jsSort le xs)).trans (List.Perm.cons x ih)

theorem insertSorted_pairwise (le : α → α → Bool)
    (htrans : ∀ a b c, le a b = true → le b c = true → le a c = true)
    (htot : ∀ a b, (le a b || le b a) = true) (x : α) :
    ∀ l : List α, List.Pairwise (fun a b => le a b = true) l →
      List.Pairwise (fun a b => le a b = true) (insertSorted le x l) := by
  intro l
  induction l with
  | nil => intro _; simp [insertSorted]
  | cons y ys ih =>
    intro hl
    obtain ⟨hy, hys⟩ := List.pairwise_cons.mp hl
    simp only [insertSorted]
    split
    · rename_i hxy
      refine List.pairwise_cons.mpr ⟨?_, hl⟩
      intro z hz
      rcases List.mem_cons.mp hz with rfl | hz'
      · exact hxy
      · exact htrans x y z hxy (hy z hz')
    · rename_i hxy
      have hyx : le y x = true := by
        have := htot x y
        simp only [Bool.or_eq_true] at this
        rcases this with h | h
        · exact absurd h hxy
        · exact h
      refine List.pairwise_cons.mpr ⟨?_, ih hys⟩
      intro z hz
      rcases List.mem_cons.mp (((insertSorted_perm le x ys).mem_iff).mp hz) with rfl | hz2
      · exact hyx
      · exact hy z hz2

theorem jsSort_pairwise (le : α → α → Bool)
    (htrans : ∀ a b c, le a b = true → le b c = true → le a c = true)
    (htot : ∀ a b, (le a b || le b a) = true) :
    ∀ l : List α, List.Pairwise (fun a b => le a b = true) (jsSort le l) := by
  intro l
  induction l with
  | nil => simp [jsSort]
  | cons x xs ih => exact insertSorted_pairwise le htrans htot x (jsSort le xs) ih

/-- Elements of a successful `exceptMapM` all arise from successful
applications of the function. -/
theorem exceptMapM_ok_mem {α β : Type} (f : α → Except String β) :
    ∀ (l : List α) (out : List β), exceptMapM f l = .ok out →
      ∀ y ∈ out, ∃ x ∈ l, f x = .ok y := by
  intro l
  induction l with
  | nil =>
    intro out h y hy
    simp only [exceptMapM] at h
    injection h with h'
    subst h'
    simp at hy
  | cons a as ih =>
    intro out h y hy
    simp only [exceptMapM, bind, Except.bind] at h
    match hfa : f a with
    | .error e => rw [hfa] at h; exact absurd h (by simp)
    | .ok b =>
      rw [hfa] at h
      match hrest : exceptMapM f as with
      | .error e => rw [hrest] at h; exact absurd h (by simp)
      | .ok bs =>
        rw [hrest] at h
        injection h with h'
        subst h'
        rcases List.mem_cons.mp hy with rfl | hy'
        · exact ⟨a, List.mem_cons_self _ _, hfa⟩
        · obtain ⟨x, hx, hfx⟩ := ih bs hrest y hy'
          exact ⟨x, List.mem_cons_of_mem _ hx, hfx⟩

/-- A successful `exceptMapM` means every element mapped successfully. -/
theorem exceptMapM_ok_forall {α β : Type} (f : α → Except String β) :
    ∀ (l : List α) (out : List β), exceptMapM f l = .ok out →
      ∀ x ∈ l, ∃ y ∈ out, f x = .ok y := by
  intro l
  induction l with
  | nil => intro out _ x hx; simp at hx
  | cons a as ih =>
    intro out h x hx
    simp only [exceptMapM, bind, Except.bind] at h
    match hfa : f a with
    | .error e => rw [hfa] at h; exact absurd h (by simp)
    | .ok b =>
      rw [hfa] at h
      match hrest : exceptMapM f as with
      | .error e => rw [hrest] at h; exact absurd h (by simp)
      | .ok bs =>
        rw [hrest] at h
        injection h with h'
        subst h'
        rcases List.mem_cons.mp hx with rfl | hx'
        · exact ⟨b, List.mem_cons_self _ _, hfa⟩
        · obtain ⟨y, hy, hfy⟩ := ih bs hrest x hx'
          exact ⟨y, List.mem_cons_of_mem _ hy, hfy⟩

/-- A successful `toRuleScopeArray` is strictly sorted (hence
de-duplicated) and contains only allowed scope tags. -/
theorem toRuleScopeArray_ok (raw : List String) (ctx : String) (l : List String)
    (h : toRuleScopeArray raw ctx = .ok l) :
    List.Pairwise (fun a b => a < b) l ∧ ∀ s ∈ l, s ∈ ALLOWED_SCOPES := by
  simp only [toRuleScopeArray, bind, Except.bind] at h
  match hmap : exceptMapM (fun s => assertIsRuleScope s ctx) raw with
  | .error e => rw [hmap] at h; exact absurd h (by simp)
  | .ok out =>
    rw [hmap] at h
    simp only [pure, Except.pure] at h
    injection h with h'
    subst h'
    constructor
    · have hsorted := jsSort_pairwise strLe strLe_trans strLe_total (jsSetDedup out)
      have hnodup : (jsSort strLe (jsSetDedup out)).Nodup :=
        ((jsSort_perm strLe (jsSetDedup out)).nodup_iff).mpr (jsSetDedup_nodup out)
      have hand := hsorted.and hnodup
      exact hand.imp (fun hab => lt_of_le_of_ne ((strLe_iff _ _).mp hab.1) hab.2)
    · intro s hs
      have hs' : s ∈ jsSetDedup out := (jsSort_perm strLe (jsSetDedup out)).mem_iff.mp hs
      have hs'' : s ∈ out := jsSetDedup_subset out s hs'
      obtain ⟨x, _, hfx⟩ := exceptMapM_ok_mem _ raw out hmap s hs''
      simp only [assertIsRuleScope] at hfx
      split at hfx
      · injection hfx with h''; subst h''; assumption
      · exact absurd hfx (by simp)

/-- Reading an association map after appending one binding. -/
theorem mapGet_append_single {α : Type} (m : List (String × α)) (k k' : String) (v : α) :
    mapGet (m ++ [(k, v)]) k' = if k' = k then some v else mapGet m k' := by
  simp only [mapGet, List.reverse_append, List.reverse_cons, List.reverse_nil,
    List.nil_append, List.cons_append, List.find?_cons]
  by_cases hk : k' = k
  · subst hk; simp
  · simp only [if_neg hk]
    have hne : ¬ k = k' := fun h => hk h.symm
    have : (decide (k = k')) = false := by simp [hne]
    simp [this]

theorem bulletFlush_untruthy (st : List String × Option String × List String)
    (h : currentTruthy st.2.1 = false) : bulletFlush st = st := by
  obtain ⟨items, current, nested⟩ := st
  match current with
  | none => rfl
  | some c =>
    simp only [currentTruthy] at h
    have hc : c = "" := by
      by_contra hne
      simp [hne] at h
    subst hc
    simp [bulletFlush]

/-- If no line of the input is a top-level (dash, star or numbered) bullet
and no bullet is open, the bullet loop emits nothing. -/
theorem bulletLoop_no_topBullets : ∀ (lines : List String)
    (st : List String × Option String × List String),
    (∀ l ∈ lines, matchTopBullet (tabNorm l) = none ∧ matchTopNum (tabNorm l) = none) →
    currentTruthy st.2.1 = false →
    bulletLoop lines st = st.1 := by
  intro lines
  induction lines with
  | nil =>
    intro st _ hcur
    simp only [bulletLoop, bulletFlush_untruthy st hcur]
  | cons line rest ih =>
    intro st hs hcur
    obtain ⟨items, current, nested⟩ := st
    have hcur' : currentTruthy current = false := hcur
    have hb := (hs line (List.mem_cons_self _ _)).1
    have hn := (hs line (List.mem_cons_self _ _)).2
    have hrest : ∀ l ∈ rest, matchTopBullet (tabNorm l) = none ∧ matchTopNum (tabNorm l) = none :=
      fun l hl => hs l (List.mem_cons_of_mem _ hl)
    simp only [bulletLoop, hb, hn]
    split
    · exact ih (items, current, nested) hrest hcur'
    · simp only [hcur', Bool.false_eq_true, and_false, if_false, ite_false]
      exact ih (items, current, nested) hrest hcur'

/-! ## Claims -/

/-- **C4.** The bullet-list extractor satisfies the spec's round-trip
examples and wrap rules: `"- A\n- B"` yields `["A","B"]`; nested
sub-bullets are rendered back as newline plus two-space-indented dashes;
a non-bullet, non-blank line while a bullet is open is appended to that
bullet with a single space; and an input with no top-level bullet lines
(in particular, empty or non-list text) yields the empty list — the
result is always a list, never null. -/
theorem claim_C4 :
    toBulletArray (some "- A\n- B") = ["A", "B"] ∧
    toBulletArray (some "- A\n  - A1\n  - A2\n- B") = ["A\n  - A1\n  - A2", "B"] ∧
    toBulletArray (some "- A\nwrapped tail") = ["A wrapped tail"] ∧
    (∀ s : String,
      (∀ l ∈ splitNl (normalizeCrLf s),
        matchTopBullet (tabNorm l) = none ∧ matchTopNum (tabNorm l) = none) →
      toBulletArray (some s) = []) ∧
    toBulletArray none = [] ∧ toBulletArray (some "") = [] := by
  refine ⟨by decide, by decide, by decide, ?_, rfl, rfl⟩
  intro s hs
  simp only [toBulletArray, bulletItems]
  split
  · rfl
  · exact bulletLoop_no_topBullets (splitNl (normalizeCrLf s)) ([], none, []) hs rfl

/-- Witness for C4's universal part: a concrete non-list text yields the
empty list. -/
theorem claim_C4_witness :
    toBulletArray (some "plain text\nno list here") = [] ∧
    toBulletArray (some "- A\n- B") = ["A", "B"] :=
  ⟨claim_C4.2.2.2.1 "plain text\nno list here" (by decide), claim_C4.1⟩

theorem assignRaw_golden_of_ne (r : RawSections) (k : SectionKey) (body : String)
    (hk : k ≠ SectionKey.golden) :
    (assignRaw r k body).golden_pattern = r.golden_pattern := by
  cases k <;> simp [assignRaw] at hk ⊢

theorem collectRaw_golden_none : ∀ (parts : List (Option String × String)) (r : RawSections),
    (∀ part ∈ parts, partKey part ≠ some SectionKey.golden) →
    (parts.foldl
      (fun r part =>
        match partKey part with
        | some k => assignRaw r k part.2
        | none => r) r).golden_pattern = r.golden_pattern := by
  intro parts
  induction parts with
  | nil => intro r _; rfl
  | cons part rest ih =>
    intro r hparts
    simp only [List.foldl_cons]
    have hstep :
        (match partKey part with
         | some k => assignRaw r k part.2
         | none => r).golden_pattern = r.golden_pattern := by
      match hpk : partKey part with
      | none => rfl
      | some k =>
        have hk : k ≠ SectionKey.golden := by
          intro hEq
          exact hparts part (List.mem_cons_self _ _) (hEq ▸ hpk)
        exact assignRaw_golden_of_ne r k part.2 hk
    rw [ih _ (fun p hp => hparts p (List.mem_cons_of_mem _ hp)), hstep]

/-- **C9.** `extractSections` returns `golden_pattern` equal to the raw
trimmed markdown of the "golden pattern" section when that heading is
present with non-blank content, `none` when the heading is absent or its
body is empty after trimming, and never the empty string. -/
theorem claim_C9 (body : String) :
    (extractSections body).golden_pattern ≠ some "" ∧
    (extractSections body).golden_pattern =
      (let r := jsTrim
        ((collectRawSections (splitByH2 (normalizeCrLf body))).golden_pattern.getD "")
       if r.length > 0 then some r else none) ∧
    ((∀ part ∈ splitByH2 (normalizeCrLf body), partKey part ≠ some SectionKey.golden) →
      (extractSections body).golden_pattern = none) := by
  refine ⟨?_, rfl, ?_⟩
  · simp only [extractSections]
    split
    · rename_i hlen
      intro hEq
      injection hEq with hEq'
      rw [hEq'] at hlen
      simp [String.length] at hlen
    · simp
  · intro habsent
    have hnone : (collectRawSections (splitByH2 (normalizeCrLf body))).golden_pattern = none := by
      have := collectRaw_golden_none (splitByH2 (normalizeCrLf body)) {} habsent
      simpa [collectRawSections] using this
    simp only [extractSections, hnone]
    decide

/-- Witness for C9 at a concrete body with no golden-pattern heading. -/
theorem claim_C9_witness :
    (extractSections "## Use When\n- A\n").golden_pattern = none ∧
    (extractSections "## Golden Pattern\n\ncode\n").golden_pattern ≠ some "" :=
  ⟨(claim_C9 "## Use When\n- A\n").2.2 (by decide),
    (claim_C9 "## Golden Pattern\n\ncode\n").1⟩

/-- **C7.** A document that does not begin with a three-dash fence line
fails frontmatter extraction (it is not treated as an empty metadata
block with the full text as body).  The Frontmatter Extractor is
modelled from the spec (§4.2): the repository delegates it to the
external `gray-matter` dependency, which is not part of the source
tree. -/
theorem claim_C7 (doc : String)
    (h : jsTrim (((splitNl doc).head?).getD "") ≠ "---") :
    ∃ e, matter doc = .error e := by
  refine ⟨"Frontmatter missing opening '---' fence.", ?_⟩
  unfold matter
  cases hsplit : splitNl doc with
  | nil => rfl
  | cons first rest =>
    rw [hsplit] at h
    simp only [List.head?, Option.getD] at h
    exact if_pos h

/-- Witness for C7 at a concrete fence-less document. -/
theorem claim_C7_witness : ∃ e, matter "hello\nworld" = .error e :=
  claim_C7 "hello\nworld" (by decide)

/-- Elimination for the tail of `parseGlobalRulesMarkdown` (status check,
rule mapping, sort, duplicate check, final record). -/
theorem parseGlobalRulesTail_ok (data : FrontmatterData) (content : String)
    (res : ParseGlobalRulesResult) (ap : Option ApplyPolicy) (metaStack : String)
    (h : (do
           let _ ← checkMetaStatus data.status
           let rules ← exceptMapM parseOneRule (splitByH2Rule (jsTrim (normalizeCrLf content)))
           let rules := jsSort (fun a b : GlobalRule => strLe a.id b.id) rules
           let _ ← checkDupRuleIds rules []
           (.ok { meta := { id := jsTrim (data.id.getD ""), stack := metaStack,
                            rule_set := data.rule_set, status := data.status,
                            summary := data.summary,
                            cache_ttl_seconds := data.cache_ttl_seconds,
                            apply_policy := ap },
                  rules := rules } : Except String ParseGlobalRulesResult))
         = .ok res) :
    res.meta.apply_policy = ap ∧ res.meta.cache_ttl_seconds = data.cache_ttl_seconds ∧
    ∃ rules0,
      exceptMapM parseOneRule (splitByH2Rule (jsTrim (normalizeCrLf content))) = .ok rules0 ∧
      res.rules = jsSort (fun a b => strLe a.id b.id) rules0 := by
  simp only [bind, Except.bind] at h
  match hst : checkMetaStatus data.status with
  | .error e => rw [hst] at h; simp at h
  | .ok u =>
    rw [hst] at h
    simp only at h
    match hmapM : exceptMapM parseOneRule (splitByH2Rule (jsTrim (normalizeCrLf content))) with
    | .error e => rw [hmapM] at h; simp at h
    | .ok rules0 =>
      rw [hmapM] at h
      simp only at h
      match hdup : checkDupRuleIds (jsSort (fun a b => strLe a.id b.id) rules0) [] with
      | .error e => rw [hdup] at h; simp at h
      | .ok u' =>
        rw [hdup] at h
        simp only at h
        injection h with h'
        refine ⟨?_, ?_, rules0, rfl, ?_⟩ <;> rw [← h']

/-- Everything a successful `parseGlobalRulesMarkdown` guarantees about
how its result was assembled. -/
theorem parseGlobalRulesMarkdown_ok (ft stack : String) (res : ParseGlobalRulesResult)
    (h : parseGlobalRulesMarkdown ft stack = .ok res) :
    ∃ data content ap rules0,
      matter ft = .ok (data, content) ∧
      parseApplyPolicy data.apply_policy "global rules frontmatter" = .ok ap ∧
      res.meta.apply_policy = ap ∧
      res.meta.cache_ttl_seconds = data.cache_ttl_seconds ∧
      exceptMapM parseOneRule (splitByH2Rule (jsTrim (normalizeCrLf content))) = .ok rules0 ∧
      res.rules = jsSort (fun a b => strLe a.id b.id) rules0 := by
  unfold parseGlobalRulesMarkdown at h
  match hm : matter ft with
  | .error e => rw [hm] at h; simp [bind, Except.bind] at h
  | .ok (data, content) =>
    rw [hm] at h
    simp only [bind, Except.bind] at h
    match hap : parseApplyPolicy data.apply_policy "global rules frontmatter" with
    | .error e => rw [hap] at h; simp at h
    | .ok ap =>
      rw [hap] at h
      simp only at h
      refine ⟨data, content, ap, ?_⟩
      split at h
      · simp at h
      · split at h
        · -- declared stack empty: defaults to the expected stack, check passes
          rw [if_neg (fun hn => hn rfl)] at h
          obtain ⟨h1, h2, rules0, h3, h4⟩ := parseGlobalRulesTail_ok data content res ap _ h
          exact ⟨rules0, rfl, hap, h1, h2, h3, h4⟩
        · split at h
          · simp at h
          · -- declared stack equals the expected stack
            obtain ⟨h1, h2, rules0, h3, h4⟩ := parseGlobalRulesTail_ok data content res ap _ h
            exact ⟨rules0, rfl, hap, h1, h2, h3, h4⟩

/-- A successful `parseApplyPolicy` that returns a policy with a
`scopes_in_order` list always returns it strictly sorted. -/
theorem parseApplyPolicy_sorted (v : Option RawApplyPolicy) (ctx : String)
    (pol : ApplyPolicy) (l : List String)
    (h : parseApplyPolicy v ctx = .ok (some pol))
    (hl : pol.scopes_in_order = some l) :
    List.Pairwise (fun a b => a < b) l := by
  match v with
  | none =>
    simp only [parseApplyPolicy] at h
    injection h with h'
    exact absurd h'.symm (by simp)
  | some raw =>
    simp only [parseApplyPolicy, bind, Except.bind] at h
    match hps : parseStringArray raw.scopes_in_order with
    | none =>
      rw [hps] at h
      simp only [pure, Except.pure] at h
      split at h
      · injection h with h'; exact absurd h'.symm (by simp)
      · injection h with h'
        have hpol : pol = { instruction := (match raw.instruction with
            | some i => if i = "" then none else some i
            | none => none), scopes_in_order := none } := by
          have := Option.some.inj h'.symm
          exact this
        rw [hpol] at hl
        exact absurd hl (by simp)
    | some rs =>
      rw [hps] at h
      simp only [bind, Except.bind] at h
      match hsc : toRuleScopeArray rs (ctx ++ ": apply_policy.scopes_in_order") with
      | .error e => rw [hsc] at h; simp at h
      | .ok l' =>
        rw [hsc] at h
        simp only [pure, Except.pure] at h
        split at h
        · rename_i hcond
          exact absurd hcond.2 (by simp)
        · injection h with h'
          have hpol : pol = { instruction := (match raw.instruction with
              | some i => if i = "" then none else some i
              | none => none), scopes_in_order := some l' } := Option.some.inj h'.symm
          rw [hpol] at hl
          simp only at hl
          injection hl with hl'
          rw [← hl']
          exact (toRuleScopeArray_ok rs _ l' hsc).1

/-- **C10.** `parseApplyPolicy` de-duplicates and lexicographically sorts
`apply_policy.scopes_in_order`, so the authored ordering is not
preserved: an authored `[utility, page, layout, component, style]` comes
back as `[component, layout, page, style, utility]`; the same holds for
the `meta.apply_policy` produced by `parseGlobalRulesMarkdown`. -/
theorem claim_C10 :
    (∀ (v : Option RawApplyPolicy) (ctx : String) (pol : ApplyPolicy) (l : List String),
      parseApplyPolicy v ctx = .ok (some pol) → pol.scopes_in_order = some l →
      List.Pairwise (fun a b => a < b) l) ∧
    (∀ (ft stack : String) (res : ParseGlobalRulesResult) (pol : ApplyPolicy)
      (l : List String),
      parseGlobalRulesMarkdown ft stack = .ok res → res.meta.apply_policy = some pol →
      pol.scopes_in_order = some l → List.Pairwise (fun a b => a < b) l) ∧
    parseApplyPolicy
        (some { instruction := none
                scopes_in_order := some ["utility", "page", "layout", "component", "style"] })
        "global rules frontmatter" =
      .ok (some { instruction := none
                  scopes_in_order := some ["component", "layout", "page", "style", "utility"] }) := by
  refine ⟨parseApplyPolicy_sorted, ?_, by rfl⟩
  intro ft stack res pol l hres hap hl
  obtain ⟨data, content, ap, rules0, hm, hpa, hmetaap, httl, hmapM, hrules⟩ :=
    parseGlobalRulesMarkdown_ok ft stack res hres
  rw [hmetaap] at hap
  rw [hap] at hpa
  exact parseApplyPolicy_sorted _ _ pol l hpa hl

/-- Witness for C10: the sortedness consequence applied at the concrete
authored ordering. -/
theorem claim_C10_witness :
    List.Pairwise (fun a b : String => a < b)
      ["component", "layout", "page", "style", "utility"] :=
  claim_C10.1
    (some { instruction := none
            scopes_in_order := some ["utility", "page", "layout", "component", "style"] })
    "global rules frontmatter"
    { instruction := none
      scopes_in_order := some ["component", "layout", "page", "style", "utility"] }
    ["component", "layout", "page", "style", "utility"]
    claim_C10.2.2 rfl

/-- A successful `parseRuleYaml` yields either no scopes at all or a
strictly sorted list of allowed scopes. -/
theorem parseRuleYaml_ok (y ctx : String) (idv : String) (scope : List String)
    (h : parseRuleYaml y ctx = .ok (idv, scope)) :
    scope = [] ∨
      (List.Pairwise (fun a b => a < b) scope ∧ ∀ s ∈ scope, s ∈ ALLOWED_SCOPES) := by
  simp only [parseRuleYaml] at h
  split at h
  · rename_i inner heq
    simp only [Except.map] at h
    match hsc : toRuleScopeArray
        (((splitCharList ',' inner.data).map (fun seg => jsTrim ⟨seg⟩)).filter
          (fun s => s ≠ "")) (ctx ++ ": scope") with
    | .error e => rw [hsc] at h; simp at h
    | .ok l =>
      rw [hsc] at h
      simp only at h
      injection h with h'
      have hsl : scope = l := congrArg Prod.snd h'.symm
      subst hsl
      exact Or.inr (toRuleScopeArray_ok _ _ _ hsc)
  · split at h
    · split at h
      · rename_i startIndex hidx
        simp only [Except.map] at h
        match hsc : toRuleScopeArray
            ((((splitNl y).drop (startIndex + 1)).takeWhile
              (fun l => ¬ topKeyTest l)).filterMap matchDashItem) (ctx ++ ": scope") with
        | .error e => rw [hsc] at h; simp at h
        | .ok l =>
          rw [hsc] at h
          simp only at h
          injection h with h'
          have hsl : scope = l := congrArg Prod.snd h'.symm
          subst hsl
          exact Or.inr (toRuleScopeArray_ok _ _ _ hsc)
      · injection h with h'
        exact Or.inl (congrArg Prod.snd h'.symm)
    · injection h with h'
      exact Or.inl (congrArg Prod.snd h'.symm)

/-- A successful `parseOneRule` always carries a non-empty, strictly
sorted, validated scope list. -/
theorem parseOneRule_ok (block : String × String) (r : GlobalRule)
    (h : parseOneRule block = .ok r) :
    r.scope ≠ [] ∧ List.Pairwise (fun a b => a < b) r.scope ∧
      ∀ s ∈ r.scope, s ∈ ALLOWED_SCOPES := by
  obtain ⟨title, body⟩ := block
  simp only [parseOneRule] at h
  split at h
  · simp at h
  · rename_i yamlFence heq
    simp only [bind, Except.bind] at h
    match hpy : parseRuleYaml yamlFence.code ("Rule '" ++ title ++ "'") with
    | .error e => rw [hpy] at h; simp at h
    | .ok (idv, scope) =>
      rw [hpy] at h
      simp only at h
      split at h
      · simp at h
      · split at h
        · simp at h
        · rename_i hidv hscope
          injection h with h'
          have hrs : r.scope = scope := by rw [← h']
          rw [hrs]
          have hne : scope ≠ [] := by
            intro hnil
            rw [hnil] at hscope
            simp at hscope
          rcases parseRuleYaml_ok _ _ _ _ hpy with hnil | hgood
          · exact absurd hnil hne
          · exact ⟨hne, hgood.1, hgood.2⟩

/-- **C5.** Every `GlobalRule` produced by `parseGlobalRulesMarkdown` has
a non-empty scope list whose elements all belong to the closed lowercase
`ScopeTag` enum, strictly sorted (hence de-duplicated); and a successful
parse means every rule block individually parsed successfully (a block
with zero scopes or an invalid token fails `parseOneRule`, and therefore,
by the second conjunct, the whole parse — no defaulting). -/
theorem claim_C5 (ft stack : String) (res : ParseGlobalRulesResult)
    (h : parseGlobalRulesMarkdown ft stack = .ok res) :
    (∀ r ∈ res.rules, r.scope ≠ [] ∧ List.Pairwise (fun a b => a < b) r.scope ∧
      ∀ s ∈ r.scope, s ∈ ALLOWED_SCOPES) ∧
    (∃ data content rules0,
      matter ft = .ok (data, content) ∧
      exceptMapM parseOneRule (splitByH2Rule (jsTrim (normalizeCrLf content))) = .ok rules0 ∧
      res.rules = jsSort (fun a b => strLe a.id b.id) rules0) := by
  obtain ⟨data, content, ap, rules0, hm, hpa, hmetaap, httl, hmapM, hrules⟩ :=
    parseGlobalRulesMarkdown_ok ft stack res h
  refine ⟨?_, data, content, rules0, hm, hmapM, hrules⟩
  intro r hr
  have hr0 : r ∈ rules0 := by
    rw [hrules] at hr
    exact (jsSort_perm _ rules0).mem_iff.mp hr
  obtain ⟨block, _, hone⟩ := exceptMapM_ok_mem parseOneRule _ rules0 hmapM r hr0
  exact parseOneRule_ok block r hone

/-- Witness for C5: the §8 example scenario document parses, and its
single rule's scope is the non-empty sorted allowed list `["page"]`. -/
theorem claim_C5_witness :
    ∃ res, parseGlobalRulesMarkdown exampleGlobalDoc "web/react" = .ok res ∧
      ∀ r ∈ res.rules, r.scope ≠ [] ∧ List.Pairwise (fun a b => a < b) r.scope ∧
        ∀ s ∈ r.scope, s ∈ ALLOWED_SCOPES := by
  refine ⟨_, rfl, ?_⟩
  exact (claim_C5 exampleGlobalDoc "web/react" _ rfl).1

/-- **C2.** A successful `getGlobalRules` returns exactly the parsed rules
whose scope intersects the requested scope set (all rules when no scope is
given), and its `cache_ttl_seconds` is the document's declared value when
present, else the index's default TTL. -/
theorem claim_C2 (index : PatternIndex) (read : String → String) (root : String)
    (args : GetGlobalRulesArgs) (resp : GetGlobalRulesResponse)
    (h : getGlobalRules index read root args = .ok resp) :
    ∃ rp parsed,
      getRepoPaths root args.stack = .ok rp ∧
      parseGlobalRulesMarkdown (read rp.baselinePath) args.stack = .ok parsed ∧
      resp.meta = parsed.meta ∧
      (resp.cache_ttl_seconds =
        match parsed.meta.cache_ttl_seconds with
        | some t => t
        | none => index.cache.cache_ttl_seconds) ∧
      (match normalizeScope args.scope with
       | none => resp.rules.items = parsed.rules
       | some sl =>
         ∀ r, r ∈ resp.rules.items ↔ (r ∈ parsed.rules ∧ ∃ s ∈ r.scope, s ∈ sl)) := by
  simp only [getGlobalRules] at h
  split at h
  · simp at h
  · simp only [bind, Except.bind] at h
    match hrp : getRepoPaths root args.stack with
    | .error e => rw [hrp] at h; simp at h
    | .ok rp =>
      rw [hrp] at h
      simp only at h
      match hps : parseGlobalRulesMarkdown (read rp.baselinePath) args.stack with
      | .error e => rw [hps] at h; simp at h
      | .ok parsed =>
        rw [hps] at h
        simp only at h
        injection h with h'
        refine ⟨rp, parsed, rfl, hps, ?_, ?_, ?_⟩
        · rw [← h']
        · rw [← h']
          cases parsed.meta.cache_ttl_seconds <;> simp [Option.getD]
        · match hsc : normalizeScope args.scope with
          | none =>
            rw [← h']
            simp only [hsc]
          | some sl =>
            intro r
            rw [← h']
            simp only [hsc, List.mem_filter, List.any_eq_true, decide_eq_true_eq]

/-- Witness for C2: the example baseline document served through a
concrete index with a `["page"]` scope filter. -/
theorem claim_C2_witness :
    ∃ resp, getGlobalRules exampleIndex (fun _ => exampleGlobalDoc) "r"
        { stack := "web/react", scope := some (.many ["page"]) } = .ok resp ∧
      ∃ rp parsed,
        getRepoPaths "r" "web/react" = .ok rp ∧
        parseGlobalRulesMarkdown exampleGlobalDoc "web/react" = .ok parsed ∧
        resp.meta = parsed.meta ∧
        (resp.cache_ttl_seconds =
          match parsed.meta.cache_ttl_seconds with
          | some t => t
          | none => exampleIndex.cache.cache_ttl_seconds) ∧
        (∀ r, r ∈ resp.rules.items ↔
          (r ∈ parsed.rules ∧ ∃ s ∈ r.scope, s ∈ ["page"])) := by
  refine ⟨_, rfl, ?_⟩
  have h := claim_C2 exampleIndex (fun _ => exampleGlobalDoc) "r"
    { stack := "web/react", scope := some (.many ["page"]) } _ rfl
  obtain ⟨rp, parsed, h1, h2, h3, h4, h5⟩ := h
  exact ⟨rp, parsed, h1, h2, h3, h4, h5⟩

theorem listPre_append {p a : List Char} (b : List Char) (h : p <+: a) :
    p <+: (a ++ b) := by
  obtain ⟨t, ht⟩ := h
  exact ⟨t ++ b, by rw [← ht, List.append_assoc]⟩

theorem listPre_take {p l : List Char} (h : p <+: l) {n : Nat} (hn : n ≤ p.length) :
    p.take n = l.take n := by
  obtain ⟨t, ht⟩ := h
  rw [← ht, List.take_append_eq_append_take]
  have h0 : n - p.length = 0 := by omega
  rw [h0]
  simp

/-- A list cannot extend a prefix whose first two characters disagree with
the target's leading literal. -/
theorem not_pre_of_head2 (p a b : List Char) (ha : 2 ≤ a.length) (hp : 2 ≤ p.length)
    (hne : p.take 2 ≠ a.take 2) : ¬ p <+: (a ++ b) := by
  intro h
  apply hne
  rw [listPre_take h hp, List.take_append_eq_append_take]
  have h0 : 2 - a.length = 0 := by omega
  rw [h0]
  simp

/-- The only error messages frontmatter extraction produces. -/
theorem matter_error_cases (doc e : String) (h : matter doc = .error e) :
    e = "Frontmatter missing opening '---' fence." ∨
      e = "Frontmatter missing closing '---' fence." := by
  unfold matter at h
  cases hsplit : splitNl doc with
  | nil => rw [hsplit] at h; injection h with h'; exact Or.inl h'.symm
  | cons first rest =>
    rw [hsplit] at h
    simp only at h
    split at h
    · injection h with h'; exact Or.inl h'.symm
    · split at h
      · injection h with h'; exact Or.inr h'.symm
      · simp at h

/-- **C8.** A `getPattern` call whose id is absent from the index's
`idToPath` map fails with the `PATTERN_NOT_FOUND:`-tagged error, and that
tag appears exactly on the unknown-id failure — every other failure of
`getPattern` (stack mismatch, malformed content) carries a message without
it, so callers can distinguish not-found from generic/content errors; as a
total function into `Except` it never crashes or returns a partial
result. -/
theorem claim_C8 (relative : String → String → String) (index : PatternIndex)
    (read : String → String) (root : String) (args : GetPatternArgs) :
    (∀ m, getPattern relative index read root args = .error m →
      ("PATTERN_NOT_FOUND:".data <+: m.data ↔
        (args.stack = index.stack ∧ mapGet index.idToPath args.id = none))) ∧
    (args.stack = index.stack → mapGet index.idToPath args.id = none →
      getPattern relative index read root args =
        .error ("PATTERN_NOT_FOUND: No pattern with id '" ++ args.id ++
          "' for stack '" ++ args.stack ++ "'")) := by
  by_cases hstack : args.stack = index.stack
  · match hlook : mapGet index.idToPath args.id with
    | none =>
      have hval : getPattern relative index read root args =
          .error ("PATTERN_NOT_FOUND: No pattern with id '" ++ args.id ++
            "' for stack '" ++ args.stack ++ "'") := by
        simp only [getPattern, hlook]
        rw [if_neg (fun hn => hn hstack)]
      refine ⟨?_, fun _ _ => hval⟩
      intro m hm
      rw [hval] at hm
      injection hm with hm'
      subst hm'
      constructor
      · intro _; exact ⟨hstack, rfl⟩
      · intro _
        simp only [String.data_append, List.append_assoc]
        exact listPre_append _ (by decide)
    | some filePath =>
      constructor
      · intro m hm
        simp only [getPattern, hlook] at hm
        rw [if_neg (fun hn => hn hstack)] at hm
        simp only [bind, Except.bind] at hm
        constructor
        · intro hpre
          exfalso
          revert hpre
          match hmat : matter (read filePath) with
          | .error e =>
            rw [hmat] at hm
            simp only at hm
            injection hm with hm'
            subst hm'
            rcases matter_error_cases _ _ hmat with hcase | hcase <;>
              (rw [hcase]; decide)
          | .ok (data, content) =>
            rw [hmat] at hm
            simp only at hm
            split at hm
            · injection hm with hm'
              subst hm'
              simp only [String.data_append, List.append_assoc]
              exact not_pre_of_head2 _ "Pattern missing 'id' in frontmatter: ".data _
                (by decide) (by decide) (by decide)
            · split at hm
              · injection hm with hm'
                subst hm'
                simp only [String.data_append, List.append_assoc]
                exact not_pre_of_head2 _ "Pattern id mismatch. Requested '".data _
                  (by decide) (by decide) (by decide)
              · split at hm
                · injection hm with hm'
                  subst hm'
                  simp only [String.data_append, List.append_assoc]
                  exact not_pre_of_head2 _ "Pattern '".data _
                    (by decide) (by decide) (by decide)
                · split at hm
                  · injection hm with hm'
                    subst hm'
                    simp only [String.data_append, List.append_assoc]
                    exact not_pre_of_head2 _ "Pattern missing 'summary' in frontmatter: ".data _
                      (by decide) (by decide) (by decide)
                  · simp at hm
        · intro ⟨_, hnone⟩
          exact absurd hnone (by simp)
      · intro _ hnone
        exact absurd hnone (by simp)
  · constructor
    · intro m hm
      simp only [getPattern] at hm
      rw [if_pos (fun hn => hstack hn)] at hm
      injection hm with hm'
      subst hm'
      constructor
      · intro hpre
        exfalso
        revert hpre
        simp only [String.data_append, List.append_assoc]
        exact not_pre_of_head2 _ "Stack mismatch. Index=".data _
          (by decide) (by decide) (by decide)
      · intro ⟨hs, _⟩
        exact absurd hs hstack
    · intro hs _
      exact absurd hs hstack

/-- Witness for C8: a concrete unknown id produces exactly the tagged
not-found error, and the tag is a prefix of the returned message. -/
theorem claim_C8_witness :
    getPattern (fun _ fp => fp) exampleIndex (fun _ => "") "r"
        { stack := "web/react", id := "nope" } =
      .error "PATTERN_NOT_FOUND: No pattern with id 'nope' for stack 'web/react'" ∧
    "PATTERN_NOT_FOUND:".data <+:
      "PATTERN_NOT_FOUND: No pattern with id 'nope' for stack 'web/react'".data := by
  have h2 := (claim_C8 (fun _ fp => fp) exampleIndex (fun _ => "") "r"
    { stack := "web/react", id := "nope" }).2 rfl (by decide)
  refine ⟨by exact h2, by decide⟩

/-- The component loop of `buildPatternIndex` never admits two summaries
with the same id: the `byId` membership check guards every insertion. -/
theorem buildIndexLoop_nodup (stack : String) (sel : List (String × SelectionExcerpt))
    (ftp : List (String × String)) :
    ∀ (paths : List String) (byId : List (String × PatternSummary))
      (idToPath : List (String × String)) (all : List PatternSummary)
      (b : List (String × PatternSummary)) (i : List (String × String))
      (a : List PatternSummary),
      buildIndexLoop stack sel ftp paths byId idToPath all = .ok (b, i, a) →
      (∀ x ∈ all, (mapGet byId x.id).isSome = true) →
      List.Pairwise (fun u v : PatternSummary => u.id ≠ v.id) all →
      List.Pairwise (fun u v : PatternSummary => u.id ≠ v.id) a := by
  intro paths
  induction paths with
  | nil =>
    intro byId idToPath all b i a h h1 h2
    simp only [buildIndexLoop] at h
    injection h with h'
    have ha : a = all := by
      have := congrArg (fun q => q.2.2) h'
      simpa using this.symm
    rw [ha]
    exact h2
  | cons p rest ih =>
    intro byId idToPath all b i a h h1 h2
    simp only [buildIndexLoop] at h
    match hraw : mapGet ftp p with
    | none => rw [hraw] at h; simp at h
    | some raw =>
      rw [hraw] at h
      simp only [bind, Except.bind] at h
      match hmat : matter raw with
      | .error e => rw [hmat] at h; simp at h
      | .ok (data, content) =>
        rw [hmat] at h
        simp only at h
        split at h
        · simp at h
        · split at h
          · simp at h
          · split at h
            · simp at h
            · split at h
              · simp at h
              · split at h
                · simp at h
                · rename_i hid hds hsum hst hdup
                  refine ih _ _ _ _ _ _ h ?_ ?_
                  · intro x hx
                    rcases List.mem_append.mp hx with hx' | hx'
                    · rw [mapGet_append_single]
                      by_cases hxid : x.id = jsTrim (data.id.getD "")
                      · rw [if_pos hxid]; rfl
                      · rw [if_neg hxid]; exact h1 x hx'
                    · have hxp := List.mem_singleton.mp hx'
                      subst hxp
                      rw [mapGet_append_single, if_pos rfl]
                      rfl
                  · rw [List.pairwise_append]
                    refine ⟨h2, List.pairwise_singleton _ _, ?_⟩
                    intro x hx y hy
                    have hyp := List.mem_singleton.mp hy
                    subst hyp
                    intro hxy
                    have hxy' : x.id = jsTrim (data.id.getD "") := hxy
                    apply hdup
                    have hx1 := h1 x hx
                    rwa [hxy'] at hx1

/-- Everything a successful `buildPatternIndex` guarantees about how the
index was assembled. -/
theorem buildPatternIndex_ok (hash : String → String) (pj : String → Option Json)
    (fsm : RepoFs) (root stack : String) (ttl : Nat) (idx : PatternIndex)
    (h : buildPatternIndex hash pj fsm root stack ttl = .ok idx) :
    ∃ rp sel b i a,
      getRepoPaths root stack = .ok rp ∧
      buildCatalogSelectionMap (pj (fsm.read rp.catalogPath)) = .ok sel ∧
      buildIndexLoop stack sel
          ((jsSort strLe ((fsm.glob rp.componentsGlob).map toPosixPath)).map
            (fun q => (q, fsm.read q)))
          (jsSort strLe ((fsm.glob rp.componentsGlob).map toPosixPath)) [] [] [] =
        .ok (b, i, a) ∧
      idx.all = jsSort (fun u v => strLe u.id v.id) a ∧
      idx.stack = stack ∧
      idx.cache.cache_ttl_seconds = ttl ∧
      idx.cache.catalog_revision = "sha256:" ++
        hash (catalogRevisionInput stack (fsm.read rp.baselinePath)
          (fsm.read rp.catalogPath)
          (jsSort strLe ((fsm.glob rp.componentsGlob).map toPosixPath))
          (fun p => mapGet
            ((jsSort strLe ((fsm.glob rp.componentsGlob).map toPosixPath)).map
              (fun q => (q, fsm.read q))) p)) := by
  simp only [buildPatternIndex, bind, Except.bind] at h
  match hrp : getRepoPaths root stack with
  | .error e => rw [hrp] at h; simp at h
  | .ok rp =>
    rw [hrp] at h
    simp only at h
    split at h
    · simp at h
    · split at h
      · simp at h
      · match hsel : buildCatalogSelectionMap (pj (fsm.read rp.catalogPath)) with
        | .error e => rw [hsel] at h; simp at h
        | .ok sel =>
          rw [hsel] at h
          simp only at h
          match hloop : buildIndexLoop stack sel
              ((jsSort strLe ((fsm.glob rp.componentsGlob).map toPosixPath)).map
                (fun q => (q, fsm.read q)))
              (jsSort strLe ((fsm.glob rp.componentsGlob).map toPosixPath)) [] [] [] with
          | .error e => rw [hloop] at h; simp at h
          | .ok bia =>
            obtain ⟨b, i, a⟩ := bia
            rw [hloop] at h
            simp only at h
            injection h with h'
            exact ⟨rp, sel, b, i, a, rfl, hsel, hloop, by rw [← h'], by rw [← h'],
              by rw [← h'], by rw [← h']⟩

/-- A successful `listPatterns` call's result list is a re-sorted
filtering of the index's `all`. -/
theorem listPatterns_ok (idx : PatternIndex) (args : ListPatternsArgs)
    (resp : ListPatternsResponse) (h : listPatterns idx args = .ok resp) :
    ∃ l, l.Sublist idx.all ∧
      resp.patterns = jsSort (fun a b => strLe a.id b.id) l := by
  simp only [listPatterns] at h
  split at h
  · simp at h
  · injection h with h'
    refine ⟨_, ?_, by rw [← h']⟩
    -- the two filter stages are sublists of `idx.all`
    have step1 :
        (match args.tags with
         | some tags =>
           if tags.length > 0 then
             idx.all.filter
               (fun p : PatternSummary => p.tags.any (fun t => jsLower t ∈ tags.map jsLower))
           else idx.all
         | none => idx.all).Sublist idx.all := by
      match args.tags with
      | some tags =>
        by_cases htl : tags.length > 0
        · simp only [if_pos htl]; exact List.filter_sublist _
        · simp only [if_neg htl]; exact List.Sublist.refl _
      | none => exact List.Sublist.refl _
    refine List.Sublist.trans ?_ step1
    match args.query with
    | some query =>
      by_cases hq : jsTrim query ≠ ""
      · simp only [if_pos hq]; exact List.filter_sublist _
      · simp only [if_neg hq]; exact List.Sublist.refl _
    | none => exact List.Sublist.refl _

/-- **C3.** For every index built by `buildPatternIndex` and every
successful `listPatterns` call against it, the returned patterns list is
strictly ascending in `id` — sorted lexicographically with no two entries
sharing an id. -/
theorem claim_C3 (hash : String → String) (pj : String → Option Json) (fsm : RepoFs)
    (root stack : String) (ttl : Nat) (idx : PatternIndex) (args : ListPatternsArgs)
    (resp : ListPatternsResponse)
    (hbuild : buildPatternIndex hash pj fsm root stack ttl = .ok idx)
    (hlist : listPatterns idx args = .ok resp) :
    List.Pairwise (fun a b : PatternSummary => a.id < b.id) resp.patterns := by
  obtain ⟨rp, sel, b, i, a, _, _, hloop, hall, _, _, _⟩ :=
    buildPatternIndex_ok hash pj fsm root stack ttl idx hbuild
  have hnodup_a : List.Pairwise (fun u v : PatternSummary => u.id ≠ v.id) a :=
    buildIndexLoop_nodup stack sel _ _ _ _ _ _ _ _ hloop (by intro x hx; simp at hx)
      (List.Pairwise.nil)
  have hnodup_all : List.Pairwise (fun u v : PatternSummary => u.id ≠ v.id) idx.all := by
    rw [hall]
    exact ((jsSort_perm _ a).pairwise_iff (fun hne h => hne h.symm)).mpr hnodup_a
  obtain ⟨l, hsub, hpat⟩ := listPatterns_ok idx args resp hlist
  have hnodup_l : List.Pairwise (fun u v : PatternSummary => u.id ≠ v.id) l :=
    hnodup_all.sublist hsub
  rw [hpat]
  have hsorted := jsSort_pairwise (fun u v : PatternSummary => strLe u.id v.id)
    (fun x y z => strLe_trans x.id y.id z.id) (fun x y => strLe_total x.id y.id) l
  have hnodup_sorted :
      List.Pairwise (fun u v : PatternSummary => u.id ≠ v.id)
        (jsSort (fun u v => strLe u.id v.id) l) :=
    ((jsSort_perm _ l).pairwise_iff (fun hne h => hne h.symm)).mpr hnodup_l
  exact (hsorted.and hnodup_sorted).imp
    (fun hab => lt_of_le_of_ne ((strLe_iff _ _).mp hab.1) hab.2)

/-- Witness for C3: the concrete two-component repository lists in strict
id order. -/
theorem claim_C3_witness :
    ∃ idx resp,
      buildPatternIndex idHash exampleParseJson exampleFs "r" "web/react" 60 = .ok idx ∧
      listPatterns idx { stack := "web/react" } = .ok resp ∧
      List.Pairwise (fun a b : PatternSummary => a.id < b.id) resp.patterns := by
  refine ⟨_, _, rfl, rfl, ?_⟩
  exact claim_C3 idHash exampleParseJson exampleFs "r" "web/react" 60 _
    { stack := "web/react" } _ rfl rfl

theorem string_append_cancel_left (s x y : String) (h : s ++ x = s ++ y) : x = y := by
  apply String.ext
  have hd := congrArg String.data h
  simp only [String.data_append] at hd
  exact List.append_cancel_left hd

theorem string_append_right_ne (s : String) {x y : String} (h : x ≠ y) :
    s ++ x ≠ s ++ y :=
  fun hEq => h (string_append_cancel_left s x y hEq)

theorem joinSep_cons (sep x : String) (rest : List String) (h : rest ≠ []) :
    joinSep sep (x :: rest) = x ++ sep ++ joinSep sep rest := by
  match rest with
  | [] => exact absurd rfl h
  | y :: ys => rfl

/-- Joining with a separator is injective in any single entry when all the
other entries are fixed. -/
theorem joinSep_mid_inj (sep : String) : ∀ (xs : List String) (a b : String)
    (ys : List String),
    joinSep sep (xs ++ a :: ys) = joinSep sep (xs ++ b :: ys) → a = b := by
  intro xs
  induction xs with
  | nil =>
    intro a b ys h
    simp only [List.nil_append] at h
    match ys with
    | [] => exact h
    | y :: ys' =>
      rw [joinSep_cons sep a (y :: ys') (by simp),
        joinSep_cons sep b (y :: ys') (by simp)] at h
      apply String.ext
      have hd := congrArg String.data h
      simp only [String.data_append] at hd
      exact List.append_cancel_right (List.append_cancel_right hd)
  | cons x xs ih =>
    intro a b ys h
    have hne1 : xs ++ a :: ys ≠ [] := by simp
    have hne2 : xs ++ b :: ys ≠ [] := by simp
    rw [List.cons_append, List.cons_append, joinSep_cons sep x _ hne1,
      joinSep_cons sep x _ hne2] at h
    have hd := congrArg String.data h
    simp only [String.data_append, List.append_assoc] at hd
    have h1 := List.append_cancel_left (List.append_cancel_left hd)
    exact ih a b ys (String.ext h1)

/-- Sorting two permuted string lists gives the same list. -/
theorem jsSort_eq_of_perm (l₁ l₂ : List String) (hp : l₁.Perm l₂) :
    jsSort strLe l₁ = jsSort strLe l₂ := by
  have s₁ := jsSort_pairwise strLe strLe_trans strLe_total l₁
  have s₂ := jsSort_pairwise strLe strLe_trans strLe_total l₂
  have hperm : (jsSort strLe l₁).Perm (jsSort strLe l₂) :=
    (jsSort_perm _ l₁).trans (hp.trans (jsSort_perm _ l₂).symm)
  haveI : IsAntisymm String (fun a b => strLe a b = true) :=
    ⟨fun a b h1 h2 => le_antisymm ((strLe_iff _ _).mp h1) ((strLe_iff _ _).mp h2)⟩
  exact List.eq_of_perm_of_sorted hperm s₁ s₂

theorem catalogRevisionInput_ne_baseline (stack b₁ b₂ c : String)
    (paths : List String) (tf : String → Option String) (h : b₁ ≠ b₂) :
    catalogRevisionInput stack b₁ c paths tf ≠
      catalogRevisionInput stack b₂ c paths tf := by
  intro hEq
  unfold catalogRevisionInput at hEq
  simp only [List.cons_append, List.nil_append] at hEq
  have := joinSep_mid_inj "\n\n" ["stack:" ++ stack] ("baseline:" ++ b₁)
    ("baseline:" ++ b₂)
    (("catalog:" ++ c) ::
      (paths.map (fun p => "component_path:" ++ p) ++
        paths.map (fun p => "component_text:" ++ (tf p).getD ""))) (by simpa using hEq)
  exact h (string_append_cancel_left "baseline:" b₁ b₂ this)

theorem catalogRevisionInput_ne_catalog (stack b c₁ c₂ : String)
    (paths : List String) (tf : String → Option String) (h : c₁ ≠ c₂) :
    catalogRevisionInput stack b c₁ paths tf ≠
      catalogRevisionInput stack b c₂ paths tf := by
  intro hEq
  unfold catalogRevisionInput at hEq
  simp only [List.cons_append, List.nil_append] at hEq
  have := joinSep_mid_inj "\n\n" ["stack:" ++ stack, "baseline:" ++ b]
    ("catalog:" ++ c₁) ("catalog:" ++ c₂)
    (paths.map (fun p => "component_path:" ++ p) ++
      paths.map (fun p => "component_text:" ++ (tf p).getD "")) (by simpa using hEq)
  exact h (string_append_cancel_left "catalog:" c₁ c₂ this)

theorem catalogRevisionInput_ne_component (stack b c : String) (paths : List String)
    (tf₁ tf₂ : String → Option String) (p₀ : String) (hmem : p₀ ∈ paths)
    (hnodup : paths.Nodup)
    (hagree : ∀ p ∈ paths, p ≠ p₀ → (tf₁ p).getD "" = (tf₂ p).getD "")
    (hdiff : (tf₁ p₀).getD "" ≠ (tf₂ p₀).getD "") :
    catalogRevisionInput stack b c paths tf₁ ≠
      catalogRevisionInput stack b c paths tf₂ := by
  intro hEq
  obtain ⟨P₁, P₂, rfl⟩ := List.append_of_mem hmem
  have hP₁ : ∀ p ∈ P₁, p ≠ p₀ := by
    intro p hp hpe
    subst hpe
    exact ((List.nodup_append.mp hnodup).2.2 hp (List.mem_cons_self _ _)).elim
  have hP₂ : ∀ p ∈ P₂, p ≠ p₀ := by
    intro p hp hpe
    subst hpe
    have := (List.nodup_append.mp hnodup).2.1
    exact (List.nodup_cons.mp this).1 hp
  have hmap₁ : P₁.map (fun p => "component_text:" ++ (tf₁ p).getD "") =
      P₁.map (fun p => "component_text:" ++ (tf₂ p).getD "") :=
    List.map_congr_left (fun p hp => by
      rw [hagree p (List.mem_append_left _ hp) (hP₁ p hp)])
  have hmap₂ : P₂.map (fun p => "component_text:" ++ (tf₁ p).getD "") =
      P₂.map (fun p => "component_text:" ++ (tf₂ p).getD "") :=
    List.map_congr_left (fun p hp => by
      rw [hagree p (List.mem_append_right _ (List.mem_cons_of_mem _ hp)) (hP₂ p hp)])
  unfold catalogRevisionInput at hEq
  simp only [List.map_append, List.map_cons, List.cons_append, List.nil_append,
    List.append_assoc] at hEq
  rw [hmap₁, hmap₂] at hEq
  have hkey := joinSep_mid_inj "\n\n"
    (("stack:" ++ stack) :: ("baseline:" ++ b) :: ("catalog:" ++ c) ::
      ((P₁ ++ p₀ :: P₂).map (fun p => "component_path:" ++ p) ++
        P₁.map (fun p => "component_text:" ++ (tf₂ p).getD "")))
    ("component_text:" ++ (tf₁ p₀).getD "") ("component_text:" ++ (tf₂ p₀).getD "")
    (P₂.map (fun p => "component_text:" ++ (tf₂ p).getD ""))
    (by simpa [List.map_append, List.map_cons, List.append_assoc] using hEq)
  exact hdiff (string_append_cancel_left "component_text:" _ _ hkey)

/-- C1: `catalog_revision` is a pure function of the stack, the baseline
text, the catalog text, and the sorted (path, content) pairs of the
component files.  Conjuncts: (1) two runs over filesystems with identical
`read`/`fileExists` but the glob enumerating the component files in any
permuted order produce identical builds (order independence); (2)–(4) a
byte change to the baseline text, the catalog text, or the content of any
one component file changes the pre-hash fingerprint input, hence (for an
injective hash) the revision string; (5) a successful build's
`catalog_revision` is exactly `"sha256:" ++ hash` of that fingerprint
input over the lexicographically sorted component paths and their
contents. -/
theorem claim_C1 (hash : String → String) (hinj : Function.Injective hash) :
    (∀ (pj : String → Option Json) (fs₁ fs₂ : RepoFs) (root stack : String) (ttl : Nat),
      fs₁.fileExists = fs₂.fileExists → fs₁.read = fs₂.read →
      (∀ g, (fs₁.glob g).Perm (fs₂.glob g)) →
      buildPatternIndex hash pj fs₁ root stack ttl =
        buildPatternIndex hash pj fs₂ root stack ttl) ∧
    (∀ (stack b₁ b₂ c : String) (paths : List String) (tf : String → Option String),
      b₁ ≠ b₂ →
      "sha256:" ++ hash (catalogRevisionInput stack b₁ c paths tf) ≠
        "sha256:" ++ hash (catalogRevisionInput stack b₂ c paths tf)) ∧
    (∀ (stack b c₁ c₂ : String) (paths : List String) (tf : String → Option String),
      c₁ ≠ c₂ →
      "sha256:" ++ hash (catalogRevisionInput stack b c₁ paths tf) ≠
        "sha256:" ++ hash (catalogRevisionInput stack b c₂ paths tf)) ∧
    (∀ (stack b c : String) (paths : List String) (tf₁ tf₂ : String → Option String)
      (p₀ : String), p₀ ∈ paths → paths.Nodup →
      (∀ p ∈ paths, p ≠ p₀ → (tf₁ p).getD "" = (tf₂ p).getD "") →
      (tf₁ p₀).getD "" ≠ (tf₂ p₀).getD "" →
      "sha256:" ++ hash (catalogRevisionInput stack b c paths tf₁) ≠
        "sha256:" ++ hash (catalogRevisionInput stack b c paths tf₂)) ∧
    (∀ (pj : String → Option Json) (fsm : RepoFs) (root stack : String) (ttl : Nat)
      (idx : PatternIndex),
      buildPatternIndex hash pj fsm root stack ttl = .ok idx →
      ∃ rp, getRepoPaths root stack = .ok rp ∧
        idx.cache.catalog_revision = "sha256:" ++
          hash (catalogRevisionInput stack (fsm.read rp.baselinePath)
            (fsm.read rp.catalogPath)
            (jsSort strLe ((fsm.glob rp.componentsGlob).map toPosixPath))
            (fun p => mapGet
              ((jsSort strLe ((fsm.glob rp.componentsGlob).map toPosixPath)).map
                (fun q => (q, fsm.read q))) p))) := by
  refine ⟨?_, ?_, ?_, ?_, ?_⟩
  · intro pj fs₁ fs₂ root stack ttl hf hr hg
    match hrp : getRepoPaths root stack with
    | .error e =>
      simp only [buildPatternIndex, bind, Except.bind, hrp]
    | .ok rp =>
      have hsorted : jsSort strLe ((fs₁.glob rp.componentsGlob).map toPosixPath) =
          jsSort strLe ((fs₂.glob rp.componentsGlob).map toPosixPath) :=
        jsSort_eq_of_perm _ _ ((hg rp.componentsGlob).map toPosixPath)
      simp only [buildPatternIndex, bind, Except.bind, hrp]
      rw [hf, hr, hsorted]
  · intro stack b₁ b₂ c paths tf h
    exact string_append_right_ne "sha256:"
      (fun hEq => catalogRevisionInput_ne_baseline stack b₁ b₂ c paths tf h (hinj hEq))
  · intro stack b c₁ c₂ paths tf h
    exact string_append_right_ne "sha256:"
      (fun hEq => catalogRevisionInput_ne_catalog stack b c₁ c₂ paths tf h (hinj hEq))
  · intro stack b c paths tf₁ tf₂ p₀ hmem hnodup hagree hdiff
    exact string_append_right_ne "sha256:"
      (fun hEq => catalogRevisionInput_ne_component stack b c paths tf₁ tf₂ p₀ hmem
        hnodup hagree hdiff (hinj hEq))
  · intro pj fsm root stack ttl idx h
    obtain ⟨rp, sel, b, i, a, h1, h2, h3, h4, h5, h6, h7⟩ :=
      buildPatternIndex_ok hash pj fsm root stack ttl idx h
    exact ⟨rp, h1, h7⟩

theorem claim_C1_witness :
    buildPatternIndex idHash exampleParseJson exampleFs "r" "web/react" 300 =
      buildPatternIndex idHash exampleParseJson exampleFsSwapped "r" "web/react" 300 ∧
    "sha256:" ++ idHash (catalogRevisionInput "web/react" "B1" "C" [] (fun _ => none)) ≠
      "sha256:" ++ idHash (catalogRevisionInput "web/react" "B2" "C" [] (fun _ => none)) := by
  constructor
  · exact (claim_C1 idHash (fun a b h => h)).1 exampleParseJson exampleFs
      exampleFsSwapped "r" "web/react" 300 rfl rfl
      (fun g => List.Perm.swap _ _ _)
  · exact (claim_C1 idHash (fun a b h => h)).2.1 "web/react" "B1" "B2" "C" []
      (fun _ => none) (by decide)

theorem mapGet_nil {α : Type} (k : String) : mapGet ([] : List (String × α)) k = none :=
  rfl

theorem find_map_self {α : Type} (f : String → α) :
    ∀ (l : List String) (p : String), p ∈ l →
      List.find? (fun x => decide (x.1 = p)) (l.map (fun q => (q, f q))) = some (p, f p) := by
  intro l
  induction l with
  | nil => intro p hp; cases hp
  | cons q rest ih =>
    intro p hp
    simp only [List.map_cons, List.find?]
    by_cases hq : q = p
    · subst hq
      simp
    · have hd : (decide ((q, f q).1 = p)) = false := by simp [hq]
      rw [hd]
      exact ih p ((List.mem_cons.mp hp).resolve_left (fun h => hq h.symm))

/-- Looking a member path up in the path-keyed `(path, content)` pairs
always yields its content, duplicates or not. -/
theorem mapGet_map_self {α : Type} (f : String → α) (l : List String) (p : String)
    (hp : p ∈ l) : mapGet (l.map (fun q => (q, f q))) p = some (f p) := by
  simp only [mapGet, ← List.map_reverse]
  rw [find_map_self f l.reverse p (List.mem_reverse.mpr hp)]
  rfl

/-- A successful pass of `buildIndexLoop` means the processed component
files declare pairwise-distinct ids, none already present in the starting
accumulator. -/
theorem buildIndexLoop_ok_ids_nodup (stack : String) (sel : List (String × SelectionExcerpt))
    (ftp : List (String × String)) (read : String → String) :
    ∀ (paths : List String) (byId : List (String × PatternSummary))
      (idToPath : List (String × String)) (all : List PatternSummary)
      (t : List (String × PatternSummary) × List (String × String) × List PatternSummary),
      (∀ p ∈ paths, mapGet ftp p = some (read p)) →
      buildIndexLoop stack sel ftp paths byId idToPath all = .ok t →
      (paths.map (fun p => componentId (read p))).Nodup ∧
      ∀ p ∈ paths, mapGet byId (componentId (read p)) = none := by
  intro paths
  induction paths with
  | nil =>
    intro byId idToPath all t hf h
    exact ⟨List.nodup_nil, fun p hp => absurd hp (List.not_mem_nil p)⟩
  | cons p rest ih =>
    intro byId idToPath all t hf h
    simp only [buildIndexLoop] at h
    rw [hf p (List.mem_cons_self _ _)] at h
    simp only [bind, Except.bind] at h
    match hm : matter (read p) with
    | .error e => rw [hm] at h; simp at h
    | .ok (d, bs) =>
      rw [hm] at h
      simp only at h
      split at h
      · simp at h
      · split at h
        · simp at h
        · split at h
          · simp at h
          · split at h
            · simp at h
            · split at h
              · simp at h
              · rename_i hid hds hsum hst hdup
                have hcid : componentId (read p) = jsTrim (d.id.getD "") := by
                  simp [componentId, hm]
                obtain ⟨hnodup, hnone⟩ :=
                  ih _ _ _ _ (fun q hq => hf q (List.mem_cons_of_mem _ hq)) h
                constructor
                · rw [List.map_cons, List.nodup_cons]
                  refine ⟨?_, hnodup⟩
                  intro hmem
                  obtain ⟨q, hq, hqe⟩ := List.mem_map.mp hmem
                  have hq0 := hnone q hq
                  rw [hqe, hcid, mapGet_append_single, if_pos rfl] at hq0
                  exact Option.noConfusion hq0
                · intro q hq
                  rcases List.mem_cons.mp hq with hq' | hq'
                  · subst hq'
                    rw [hcid]
                    cases hmg : mapGet byId (jsTrim (d.id.getD "")) with
                    | none => rfl
                    | some v => rw [hmg] at hdup; exact absurd rfl hdup
                  · have hq0 := hnone q hq'
                    rw [mapGet_append_single] at hq0
                    by_cases hk : componentId (read q) = jsTrim (d.id.getD "")
                    · rw [if_pos hk] at hq0; exact Option.noConfusion hq0
                    · rwa [if_neg hk] at hq0

/-- `buildIndexLoop` walks cleanly through a prefix of valid component
files with pairwise-distinct ids none of which is taken yet, reaching the
rest of the list with enlarged accumulators whose registered ids are
exactly the starting ones plus the prefix's. -/
theorem buildIndexLoop_prefix (stack : String) (sel : List (String × SelectionExcerpt))
    (ftp : List (String × String)) (read : String → String) :
    ∀ (pre rest : List String) (byId : List (String × PatternSummary))
      (idToPath : List (String × String)) (all : List PatternSummary),
      (∀ p ∈ pre, mapGet ftp p = some (read p)) →
      (∀ p ∈ pre, validComponent stack (read p) = true) →
      List.Pairwise (fun p q => componentId (read p) ≠ componentId (read q)) pre →
      (∀ p ∈ pre, mapGet byId (componentId (read p)) = none) →
      ∃ byId' idToPath' all',
        buildIndexLoop stack sel ftp (pre ++ rest) byId idToPath all =
          buildIndexLoop stack sel ftp rest byId' idToPath' all' ∧
        ∀ k, (mapGet byId' k).isSome = true ↔
          ((mapGet byId k).isSome = true ∨ ∃ p ∈ pre, componentId (read p) = k) := by
  intro pre
  induction pre with
  | nil =>
    intro rest byId idToPath all _ _ _ _
    exact ⟨byId, idToPath, all, rfl, fun k => by simp⟩
  | cons p pre ih =>
    intro rest byId idToPath all hf hv hpw hnone
    have hfp := hf p (List.mem_cons_self _ _)
    have hvp := hv p (List.mem_cons_self _ _)
    match hm : matter (read p) with
    | .error e =>
      simp only [validComponent, hm] at hvp
      exact Bool.noConfusion hvp
    | .ok (d, bs) =>
      simp only [validComponent, hm, decide_eq_true_eq] at hvp
      obtain ⟨hid, hds, hsum, hst⟩ := hvp
      have hcid : componentId (read p) = jsTrim (d.id.getD "") := by
        simp [componentId, hm]
      have hhead := (List.pairwise_cons.mp hpw).1
      have hn := hnone p (List.mem_cons_self _ _)
      rw [hcid] at hn
      simp only [List.cons_append, buildIndexLoop]
      rw [hfp]
      simp only [bind, Except.bind]
      rw [hm]
      simp only
      rw [if_neg hid]
      rw [if_neg (fun hcon => hds.elim hcon.1 hcon.2)]
      rw [if_neg hsum]
      rw [if_neg (not_not_intro hst)]
      rw [hn]
      simp only [Option.isSome_none, List.nil_append]
      rw [if_neg (fun hcon => Bool.noConfusion hcon)]
      have hf' : ∀ q ∈ pre, mapGet ftp q = some (read q) :=
        fun q hq => hf q (List.mem_cons_of_mem _ hq)
      have hv' : ∀ q ∈ pre, validComponent stack (read q) = true :=
        fun q hq => hv q (List.mem_cons_of_mem _ hq)
      have hpw' := (List.pairwise_cons.mp hpw).2
      have hnone' : ∀ q ∈ pre,
          mapGet (byId ++ [(jsTrim (d.id.getD ""), componentSummary stack sel d)])
            (componentId (read q)) = none := by
        intro q hq
        rw [mapGet_append_single,
          if_neg (fun hEq => hhead q hq (hcid.trans hEq.symm))]
        exact hnone q (List.mem_cons_of_mem _ hq)
      obtain ⟨byId', idToPath', all', heq, hchar⟩ :=
        ih rest (byId ++ [(jsTrim (d.id.getD ""), componentSummary stack sel d)])
          (idToPath ++ [(jsTrim (d.id.getD ""), p)])
          (all ++ [componentSummary stack sel d]) hf' hv' hpw' hnone'
      refine ⟨byId', idToPath', all', heq, ?_⟩
      intro k
      rw [hchar k, mapGet_append_single]
      by_cases hk : k = jsTrim (d.id.getD "")
      · rw [if_pos hk]
        simp only [Option.isSome_some]
        constructor
        · intro _
          exact Or.inr ⟨p, List.mem_cons_self _ _, by rw [hcid]; exact hk.symm⟩
        · intro _
          exact Or.inl trivial
      · rw [if_neg hk]
        constructor
        · rintro (hbase | ⟨q, hq, hqk⟩)
          · exact Or.inl hbase
          · exact Or.inr ⟨q, List.mem_cons_of_mem _ hq, hqk⟩
        · rintro (hbase | ⟨q, hq, hqk⟩)
          · exact Or.inl hbase
          · rcases List.mem_cons.mp hq with hq' | hq'
            · subst hq'
              exact absurd (hcid ▸ hqk).symm hk
            · exact Or.inr ⟨q, hq', hqk⟩

/-- When the next component file is valid but declares an id the
accumulator already holds, `buildIndexLoop` stops with the duplicate-id
error naming that id and this file's path. -/
theorem buildIndexLoop_dup_head (stack : String) (sel : List (String × SelectionExcerpt))
    (ftp : List (String × String)) (read : String → String) (p₂ : String)
    (post : List String) (byId : List (String × PatternSummary))
    (idToPath : List (String × String)) (all : List PatternSummary) (i : String)
    (hf : mapGet ftp p₂ = some (read p₂))
    (hv : validComponent stack (read p₂) = true)
    (hid : componentId (read p₂) = i)
    (hdup : (mapGet byId i).isSome = true) :
    buildIndexLoop stack sel ftp (p₂ :: post) byId idToPath all =
      .error ("Duplicate pattern id '" ++ i ++ "' found. Second copy: " ++ p₂) := by
  match hm : matter (read p₂) with
  | .error e =>
    simp only [validComponent, hm] at hv
    exact Bool.noConfusion hv
  | .ok (d, bs) =>
    simp only [validComponent, hm, decide_eq_true_eq] at hv
    obtain ⟨hidne, hds, hsum, hst⟩ := hv
    have hcid : jsTrim (d.id.getD "") = i := by
      simpa [componentId, hm] using hid
    have hine : i ≠ "" := hcid ▸ hidne
    simp only [buildIndexLoop]
    rw [hf]
    simp only [bind, Except.bind]
    rw [hm]
    simp only [hcid]
    rw [if_neg hine]
    rw [if_neg (fun hcon => hds.elim hcon.1 hcon.2)]
    rw [if_neg hsum]
    rw [if_neg (not_not_intro hst)]
    rw [if_pos hdup]

set_option maxRecDepth 40000 in
/-- C6 counterexample: on a concrete repository in which
`…/components/a.md` and `…/components/b.md` both declare
`id: alpha.one`, `buildPatternIndex` does fail, but the error message
names only the second (sorted-order) offending path — the first path
does not occur in the message at all, so the error does not name both
offending file paths. -/
theorem claim_C6_counterexample :
    buildPatternIndex idHash exampleParseJson exampleFsDup "r" "web/react" 300 =
      .error ("Duplicate pattern id 'alpha.one' found. Second copy: " ++
        "r/patterns/web/react/components/b.md") ∧
    ¬ ("r/patterns/web/react/components/a.md").data <:+:
      ("Duplicate pattern id 'alpha.one' found. Second copy: " ++
        "r/patterns/web/react/components/b.md").data := by
  exact ⟨by rfl, by decide⟩

/-- C6 (amended): for every set of component files, (1) a successful
`buildPatternIndex` requires the sorted component files to declare
pairwise-distinct ids — so whenever two distinct files declare the same
frontmatter id the build fails and no index is produced — and (2) when
every file before the second copy (in sorted order) is valid with
pairwise-distinct ids, one of them sharing the second copy's id, the
error is exactly the duplicate-id message naming the duplicated id and
the second offending file's path (only — not both paths). -/
theorem claim_C6 (hash : String → String) (pj : String → Option Json) (fsm : RepoFs)
    (root stack : String) (ttl : Nat) :
    (∀ idx : PatternIndex,
      buildPatternIndex hash pj fsm root stack ttl = .ok idx →
      ∃ rp, getRepoPaths root stack = .ok rp ∧
        ((jsSort strLe ((fsm.glob rp.componentsGlob).map toPosixPath)).map
          (fun p => componentId (fsm.read p))).Nodup) ∧
    (∀ (rp : RepoPaths) (sel : List (String × SelectionExcerpt)) (pre : List String)
      (p₂ : String) (post : List String) (i : String),
      getRepoPaths root stack = .ok rp →
      fsm.fileExists rp.baselinePath = true →
      fsm.fileExists rp.catalogPath = true →
      buildCatalogSelectionMap (pj (fsm.read rp.catalogPath)) = .ok sel →
      jsSort strLe ((fsm.glob rp.componentsGlob).map toPosixPath) = pre ++ p₂ :: post →
      (∀ p ∈ pre, validComponent stack (fsm.read p) = true) →
      List.Pairwise (fun p q => componentId (fsm.read p) ≠ componentId (fsm.read q)) pre →
      (∃ p₁ ∈ pre, componentId (fsm.read p₁) = i) →
      validComponent stack (fsm.read p₂) = true →
      componentId (fsm.read p₂) = i →
      buildPatternIndex hash pj fsm root stack ttl =
        .error ("Duplicate pattern id '" ++ i ++ "' found. Second copy: " ++ p₂)) := by
  constructor
  · intro idx h
    obtain ⟨rp, sel, b, i2, a, h1, h2, h3, _⟩ :=
      buildPatternIndex_ok hash pj fsm root stack ttl idx h
    refine ⟨rp, h1, ?_⟩
    exact (buildIndexLoop_ok_ids_nodup stack sel _ fsm.read _ [] [] [] (b, i2, a)
      (fun p hp => mapGet_map_self fsm.read _ p hp) h3).1
  · intro rp sel pre p₂ post i hrp hb hc hsel hglob hvalidPre hpw hp₁ hv₂ hid₂
    simp only [buildPatternIndex, bind, Except.bind, hrp]
    rw [if_neg (fun hcon => Bool.noConfusion (hb.symm.trans hcon))]
    rw [if_neg (fun hcon => Bool.noConfusion (hc.symm.trans hcon))]
    rw [hsel]
    simp only [hglob]
    have hf : ∀ p ∈ pre ++ p₂ :: post,
        mapGet ((pre ++ p₂ :: post).map (fun q => (q, fsm.read q))) p =
          some (fsm.read p) :=
      fun p hp => mapGet_map_self fsm.read _ p hp
    obtain ⟨byId', idToPath', all', heq, hchar⟩ :=
      buildIndexLoop_prefix stack sel ((pre ++ p₂ :: post).map (fun q => (q, fsm.read q)))
        fsm.read pre (p₂ :: post) [] [] []
        (fun p hp => hf p (List.mem_append_left _ hp))
        hvalidPre hpw (fun p hp => rfl)
    have hdup : (mapGet byId' i).isSome = true := (hchar i).mpr (Or.inr hp₁)
    rw [heq]
    rw [buildIndexLoop_dup_head stack sel _ fsm.read p₂ post byId' idToPath' all' i
      (hf p₂ (List.mem_append_right _ (List.mem_cons_self _ _))) hv₂ hid₂ hdup]

set_option maxRecDepth 40000 in
theorem claim_C6_witness :
    buildPatternIndex idHash exampleParseJson exampleFsDup "r" "web/react" 300 =
      .error ("Duplicate pattern id '" ++ "alpha.one" ++ "' found. Second copy: " ++
        "r/patterns/web/react/components/b.md") :=
  (claim_C6 idHash exampleParseJson exampleFsDup "r" "web/react" 300).2
    { baselinePath := "r/patterns/web/react/global/global_rules.md"
      catalogPath := "r/patterns/web/react/patterns.json"
      componentsGlob := "r/patterns/web/react/components/**/*.\x7bmd,mdx,markdown\x7d" }
    [] ["r/patterns/web/react/components/a.md"] "r/patterns/web/react/components/b.md"
    [] "alpha.one"
    (by rfl) (by rfl) (by rfl) (by rfl) (by rfl)
    (by intro p hp; rw [List.mem_singleton.mp hp]; rfl)
    (List.pairwise_singleton _ _)
    ⟨"r/patterns/web/react/components/a.md", List.mem_singleton.mpr rfl, by rfl⟩
    (by rfl) (by rfl)

end APMcp
